import Mathlib

/-!
Verification of the adaptive sampling core (package adaptive).

This file gives a shallow embedding, in Lean 4, of the learner classes of
src/adaptive/learner.py (BaseLearner, AverageLearner, Learner1D, restore)
and src/adaptive/learner/learner2D.py (choose_point_in_triangle, Learner2D),
and settles the frozen claims about them.

Modelling conventions:
 - Python floats are modelled as real numbers; x coordinates (which the
   claims only compare and insert) are modelled as rationals so that key
   operations stay decidable.  The float infinities that the code
   manipulates (np.inf, float(1/0 style overflow never occurs here) are
   modelled with EReal where they can actually arise (loss values, the
   y bounding box which starts at [inf, -inf]).
 - The pending sentinel None is modelled with Option: a data value
   Option.none is the pending sentinel.
 - A Python dict str-keyed by floats is modelled as an association list;
   a SortedDict is an association list kept sorted by its insertion
   operation, exactly as sortedcontainers keeps its keys sorted.
 - Code that raises an uncaught exception is modelled with Option/Except:
   the result Option.none (or Except.error) means the call raises.
 - Division: Lean total division x / 0 = 0 is used where the Python code
   is guarded so that the denominator is nonzero on every reachable path;
   the one reachable unguarded zero denominator (AverageLearner.loss
   dividing by abs(mean) with mean = 0, a ZeroDivisionError) is modelled
   explicitly as Option.none.
-/

namespace Adaptive

/-! ## Generic association list helpers (dict and SortedDict operations) -/

/-- keysOf l is the list of keys of an association list. -/
def keysOf {α β : Type} (l : List (α × β)) : List α := l.map Prod.fst

/-- setA k v l models Python dict assignment d[k] = v on an insertion
ordered dict: replace the value at the first occurrence of k, else append. -/
def setA {α β : Type} [DecidableEq α] (k : α) (v : β) : List (α × β) → List (α × β)
  | [] => [(k, v)]
  | (a, b) :: l => if k = a then (k, v) :: l else (a, b) :: setA k v l

/-- eraseA k l models Python del d[k] (and dict.pop(k, None)): remove the
first binding of k if present. -/
def eraseA {α β : Type} [DecidableEq α] (k : α) : List (α × β) → List (α × β)
  | [] => []
  | (a, b) :: l => if k = a then l else (a, b) :: eraseA k l

/-- lookupA k l is Python d.get(k): the first binding of k, if any. -/
def lookupA {α β : Type} [DecidableEq α] (k : α) : List (α × β) → Option β
  | [] => none
  | (a, b) :: l => if k = a then some b else lookupA k l

/-- setS k v l models SortedDict assignment: insert in key order,
replacing an existing binding of the same key. -/
def setS {β : Type} (k : ℚ) (v : β) : List (ℚ × β) → List (ℚ × β)
  | [] => [(k, v)]
  | (a, b) :: l =>
    if k < a then (k, v) :: (a, b) :: l
    else if k = a then (k, v) :: l
    else (a, b) :: setS k v l

/-! ## AverageLearner (src/adaptive/learner.py lines 97-166)

State: atol and rtol are the tolerances; the value Option.none models the
tolerance that was not given and became np.inf in the constructor.  n is
self.n (count of observed values), n_requested is self.n_requested, sum_f
and sum_f_sq are the running sums, and data is self.data, an integer keyed
dict whose value Option.none is the pending sentinel. -/

structure AvgState where
  atol : Option ℝ
  rtol : Option ℝ
  n : ℕ
  n_requested : ℕ
  sum_f : ℝ
  sum_f_sq : ℝ
  data : List (ℕ × Option ℝ)

namespace AvgState

/-- init models AverageLearner.__init__ after the tolerance check
succeeded (at least one of atol, rtol was given). -/
def init (atol rtol : Option ℝ) : AvgState :=
  ⟨atol, rtol, 0, 0, 0, 0, []⟩

/-- mk models AverageLearner.__init__ including the configuration check:
construction with neither tolerance raises. -/
def construct (atol rtol : Option ℝ) : Except Unit AvgState :=
  if atol.isNone ∧ rtol.isNone then .error () else .ok (init atol rtol)

/-- add_point models AverageLearner.add_point (lines 135-143). -/
def add_point (s : AvgState) (k : ℕ) (v : Option ℝ) : AvgState :=
  let d := setA k v s.data
  match v with
  | none => { s with data := d, n_requested := s.n_requested + 1 }
  | some y =>
    { s with
      data := d
      n := s.n + 1
      sum_f := s.sum_f + y
      sum_f_sq := s.sum_f_sq + y ^ 2 }

/-- choose_points models AverageLearner.choose_points (lines 128-133):
the next n sequential indices, a parallel list of None loss improvements,
and, when add_data is true, each point added as pending via add_data. -/
def choose_points (s : AvgState) (n : ℕ) (add_data : Bool) :
    (List ℕ × List (Option ℝ)) × AvgState :=
  let points := (List.range n).map (s.n_requested + ·)
  ((points, List.replicate n none),
   if add_data then points.foldl (fun t p => t.add_point p none) s else s)

/-- remove_unfinished models AverageLearner.remove_unfinished
(lines 164-166): the body is pass, so the state is unchanged. -/
def remove_unfinished (s : AvgState) : AvgState := s

/-- mean models the property AverageLearner.mean, sum_f / n.  (With n = 0
the Python expression raises ZeroDivisionError; no claim evaluates mean
there, and Lean total division returns 0.) -/
noncomputable def mean (s : AvgState) : ℝ := s.sum_f / s.n

/-- stdVal is the float value computed by AverageLearner.std when
n is at least 2. -/
noncomputable def stdVal (s : AvgState) : ℝ :=
  Real.sqrt ((s.sum_f_sq - s.n * s.mean ^ 2) / ((s.n : ℝ) - 1))

/-- std models the property AverageLearner.std (lines 149-154):
np.inf when fewer than 2 observations. -/
noncomputable def std (s : AvgState) : EReal :=
  if s.n < 2 then ⊤ else ((s.stdVal : ℝ) : EReal)

/-- divTol x t models the float division x / tol where tol is a positive
tolerance or np.inf (Option.none): a finite x divided by np.inf is 0. -/
noncomputable def divTol (x : ℝ) : Option ℝ → ℝ
  | none => 0
  | some t => x / t

/-- loss models AverageLearner.loss (lines 156-162).  The result
Option.none models an uncaught ZeroDivisionError, in the order the
source evaluates the divisions: standard_error divides the std by
sqrt(n_requested) (zero when real is false and nothing was requested),
then standard_error / atol raises for a zero absolute tolerance, then
standard_error / abs(mean) raises for a zero observed mean, then / rtol
raises for a zero relative tolerance.  A tolerance the constructor
replaced by np.inf (Option.none here) divides to 0.0 and does not
raise. -/
noncomputable def loss (s : AvgState) (real : Bool) : Option EReal :=
  if s.n < 2 then some ⊤
  else if (if real then s.n else s.n_requested) = 0 then none
  else
    let standard_error :=
      s.stdVal / Real.sqrt (if real then (s.n : ℝ) else (s.n_requested : ℝ))
    if s.atol = some 0 then none
    else if s.mean = 0 then none
    else if s.rtol = some 0 then none
    else some (((max (divTol standard_error s.atol)
        (divTol (standard_error / |s.mean|) s.rtol) : ℝ) : EReal))

/-- getstate models BaseLearner.__getstate__ (learner.py lines 91-92) for
the scalar average engine: a copy of the whole state. -/
def getstate (s : AvgState) : AvgState := s

/-- setstate models BaseLearner.__setstate__ (learner.py lines 94-95). -/
def setstate (state : AvgState) : AvgState := state

/-- restoreRun models the restore context manager (learner.py lines
844-851) around one scalar average engine: capture the state, run the
body, and restore the captured state in the finally block whether or not
the body raised. -/
def restoreRun (s : AvgState) (body : AvgState → Except Unit AvgState) :
    Except Unit Unit × AvgState :=
  let saved := getstate s
  match body s with
  | .ok _ => (.ok (), setstate saved)
  | .error e => (.error e, setstate saved)

end AvgState

/-! ## choose_point_in_triangle (src/adaptive/learner/learner2D.py lines 53-87)

Triangle vertices are pairs of reals (numpy floats).  The area computed by
the source is the signed area (half the cross product of two edge vectors);
this sign is what claim C8 is about. -/

/-- Tri is a triangle given by its three vertex rows a, b, c, in the order
the numpy array stores them. -/
structure Tri where
  a : ℝ × ℝ
  b : ℝ × ℝ
  c : ℝ × ℝ

namespace Tri

/-- vsub is componentwise vector subtraction of two points. -/
def vsub (u v : ℝ × ℝ) : ℝ × ℝ := (u.1 - v.1, u.2 - v.2)

/-- cross is the two dimensional cross product np.cross(u, v). -/
def cross (u v : ℝ × ℝ) : ℝ := u.1 * v.2 - u.2 * v.1

/-- enorm is the euclidean norm np.linalg.norm of a row. -/
noncomputable def enorm (u : ℝ × ℝ) : ℝ := Real.sqrt (u.1 ^ 2 + u.2 ^ 2)

/-- area is the signed area 0.5 * np.cross(b - a, c - a) computed by
choose_point_in_triangle.  It is negative for clockwise vertex order. -/
noncomputable def area (t : Tri) : ℝ := 1 / 2 * cross (vsub t.b t.a) (vsub t.c t.a)

/-- triV i is triangle[i]. -/
def triV (t : Tri) : Fin 3 → ℝ × ℝ
  | 0 => t.a
  | 1 => t.b
  | 2 => t.c

/-- rollV i is np.roll(triangle, 1, axis=0)[i], i.e. [c, a, b][i]. -/
def rollV (t : Tri) : Fin 3 → ℝ × ℝ
  | 0 => t.c
  | 1 => t.a
  | 2 => t.b

/-- edge_lengths i is np.linalg.norm(triangle - triangle_roll, axis=1)[i]:
the length of the edge between triangle[i] and its rolled predecessor. -/
noncomputable def edge_lengths (t : Tri) (i : Fin 3) : ℝ :=
  enorm (vsub (triV t i) (rollV t i))

open Classical in
/-- longestIdx is i = edge_lengths.argmax(): the first index attaining
the maximum edge length, with the numpy first-maximum tie break. -/
noncomputable def longestIdx (t : Tri) : Fin 3 :=
  if edge_lengths t 1 > edge_lengths t 0 ∨ edge_lengths t 2 > edge_lengths t 0 then
    (if edge_lengths t 2 > edge_lengths t 1 then 2 else 1)
  else 0

/-- badness is the quantity (edge_lengths[i]**2 / area) * (sqrt(3) / 4)
computed by the source, with the signed area. -/
noncomputable def badness (t : Tri) : ℝ :=
  edge_lengths t (longestIdx t) ^ 2 / area t * (Real.sqrt 3 / 4)

/-- centroid is triangle.mean(axis=0). -/
noncomputable def centroid (t : Tri) : ℝ × ℝ :=
  ((t.a.1 + t.b.1 + t.c.1) / 3, (t.a.2 + t.b.2 + t.c.2) / 3)

/-- midpointLongest is (triangle_roll[i] + triangle[i]) / 2 at
i = longestIdx: the midpoint of the chosen longest edge. -/
noncomputable def midpointLongest (t : Tri) : ℝ × ℝ :=
  (((rollV t (longestIdx t)).1 + (triV t (longestIdx t)).1) / 2,
   ((rollV t (longestIdx t)).2 + (triV t (longestIdx t)).2) / 2)

open Classical in
/-- choose_point_in_triangle models the source function of the same name:
if the (signed) badness exceeds max_badness the midpoint of the longest
edge is returned, otherwise the centroid. -/
noncomputable def choose_point_in_triangle (t : Tri) (max_badness : ℝ) : ℝ × ℝ :=
  if badness t > max_badness then midpointLongest t else centroid t

/-- specBadness is the badness as the specification words define it:
longest edge length squared over the (unsigned) area, normalised by
sqrt(3) / 4 so that every equilateral triangle scores exactly 1.  This
definition follows the words of the spec, for comparison with badness. -/
noncomputable def specBadness (t : Tri) : ℝ :=
  edge_lengths t (longestIdx t) ^ 2 / |area t| * (Real.sqrt 3 / 4)

end Tri

/-! ## Learner2D (src/adaptive/learner/learner2D.py lines 90-314)

The state keeps data (an ordered dict point to value), the stack (an
ordered dict candidate point to stored loss, np.inf for the initial corner
entries, hence EReal values) and the pending set interp (self._interp).
Points are pairs of rationals.  The interpolator caches self._ip and
self._ip_combined are pure caches of scipy objects with no observable
effect on the claims and are not part of the state. -/

/-- Pt2 is a two dimensional sample point. -/
abbrev Pt2 := ℚ × ℚ

structure L2State where
  bounds : (ℚ × ℚ) × (ℚ × ℚ)
  bounds_points : List Pt2
  data : List (Pt2 × ℝ)
  stack : List (Pt2 × EReal)
  interp : List Pt2

namespace Learner2D

/-- init models Learner2D.__init__: empty data, the four corner points
list(itertools.product(*bounds)), and the stack holding every corner with
loss np.inf. -/
def init (bounds : (ℚ × ℚ) × (ℚ × ℚ)) : L2State :=
  let bp := [(bounds.1.1, bounds.2.1), (bounds.1.1, bounds.2.2),
             (bounds.1.2, bounds.2.1), (bounds.1.2, bounds.2.2)]
  ⟨bounds, bp, [], bp.map (fun p => (p, (⊤ : EReal))), []⟩

/-- insertSet x l models Python set.add: append if not a member. -/
def insertSet (x : Pt2) (l : List Pt2) : List Pt2 :=
  if x ∈ l then l else l ++ [x]

/-- add_point models Learner2D.add_point (lines 228-239): a pending value
joins the interp set, a real value joins data and leaves the interp set;
either way the point leaves the candidate stack. -/
def add_point (s : L2State) (p : Pt2) (v : Option ℝ) : L2State :=
  match v with
  | none => { s with interp := insertSet p s.interp, stack := eraseA p s.stack }
  | some y => { s with
                data := setA p y s.data
                interp := s.interp.erase p
                stack := eraseA p s.stack }

/-- remove_unfinished models Learner2D.remove_unfinished (lines 313-314):
the pending set becomes empty. -/
def remove_unfinished (s : L2State) : L2State := { s with interp := [] }

/-- bounds_are_done models the property Learner2D.bounds_are_done
(lines 192-195): true when no declared corner is pending or stacked.
Membership in data is not consulted by the source. -/
def bounds_are_done (s : L2State) : Prop :=
  ¬ ∃ p ∈ s.bounds_points, p ∈ s.interp ∨ p ∈ keysOf s.stack

instance (s : L2State) : Decidable (bounds_are_done s) := by
  unfold bounds_are_done; infer_instance

open Classical in
/-- loss models Learner2D.loss (lines 306-311).  The branch on
bounds_are_done and the point count gate are taken from the source; the
actual value self.loss_per_triangle(ip).max() is an external scipy
computation (LinearNDInterpolator plus the pluggable loss model) and is
abstracted by the parameter ipLoss.  The result Option.none models the
error scipy raises when the interpolant is built from fewer than 3 points
(the triangulation of the scaled data cannot exist); degenerate point sets
beyond the count gate are subsumed into ipLoss. -/
noncomputable def loss (s : L2State) (real : Bool) (ipLoss : Bool → L2State → ℝ) :
    Option EReal :=
  if ¬ bounds_are_done s then some ⊤
  else if (if real then s.data.length else s.data.length + s.interp.length) < 3 then
    none
  else some ((ipLoss real s : ℝ) : EReal)

/-- getstate models the snapshot of the whole 2-D engine state that the
restore wrapper captures.  The class in learner2D.py inherits it from
base_learner.py, a file absent from the sources; the model follows
BaseLearner.__getstate__ of learner.py (lines 91-92), a copy of the
whole state, which is what the spec describes for the dry-run clone. -/
def getstate (s : L2State) : L2State := s

/-- setstate restores a captured 2-D state, after
BaseLearner.__setstate__ of learner.py (lines 94-95). -/
def setstate (state : L2State) : L2State := state

/-- restoreRun models the restore context manager (learner.py lines
844-851) around one 2-D engine: capture the state, run the body, and
restore the captured state in the finally block whether or not the body
raised. -/
def restoreRun (s : L2State) (body : L2State → Except Unit L2State) :
    Except Unit Unit × L2State :=
  let saved := getstate s
  match body s with
  | .ok _ => (.ok (), setstate saved)
  | .error e => (.error e, setstate saved)

end Learner2D

/-! ## Learner1D (src/adaptive/learner.py lines 177-395)

State fields mirror the attributes of Learner1D.  x keys are rationals,
y values are reals.  The y bounding box starts at [np.inf, -np.inf] and
is modelled with EReal; the y scale (bbox difference) is EReal as well
(-inf - inf = -inf in float arithmetic is bot - top = bot in EReal).
The x scale stays rational: the x bounding box starts at the bounds. -/

/-- N2 is one value of the neighbors SortedDict: the two element list
[x_lower, x_upper], each possibly None. -/
abbrev N2 := Option ℚ × Option ℚ

structure L1State where
  bounds : ℚ × ℚ
  data : List (ℚ × ℝ)
  data_interp : List (ℚ × ℝ)
  losses : List ((ℚ × ℚ) × ℝ)
  losses_combined : List ((ℚ × ℚ) × ℝ)
  neighbors : List (ℚ × N2)
  neighbors_combined : List (ℚ × N2)
  bboxX : ℚ × ℚ
  bboxY : EReal × EReal
  scaleX : ℚ
  scaleY : EReal
  oldscaleX : ℚ
  oldscaleY : EReal

namespace Learner1D

/-- init models Learner1D.__init__. -/
def init (bounds : ℚ × ℚ) : L1State :=
  ⟨bounds, [], [], [], [], [], [],
   bounds, ((⊤ : EReal), (⊥ : EReal)),
   bounds.2 - bounds.1, 0, bounds.2 - bounds.1, 0⟩

open Classical in
/-- divF d s is the float division d / s where s may be an infinity:
a finite numerator divided by an infinite scale gives (minus) zero, which
the caller squares.  The zero denominator case is unreachable because
interval_loss guards on scale equal to zero. -/
noncomputable def divF (d : ℝ) (s : EReal) : ℝ :=
  if s = ⊤ ∨ s = ⊥ then 0 else d / s.toReal

open Classical in
/-- interval_loss models Learner1D.interval_loss (lines 217-229): the
rescaled euclidean length of the interval, with the y term dropped when
the y scale is zero. -/
noncomputable def interval_loss (xl xr : ℚ) (dat : List (ℚ × ℝ)) (sx : ℚ) (sy : EReal) : ℝ :=
  let yl := (lookupA xl dat).getD 0
  let yr := (lookupA xr dat).getD 0
  if sy = 0 then Real.sqrt ((((xr - xl : ℚ) : ℝ) / ((sx : ℚ) : ℝ)) ^ 2)
  else Real.sqrt ((((xr - xl : ℚ) : ℝ) / ((sx : ℚ) : ℝ)) ^ 2 + divF (yr - yl) sy ^ 2)

/-- update_losses models Learner1D.update_losses (lines 238-247): write
the 1-2 losses adjacent to x and delete the loss of the pair x split
(the delete is a no-op unless both neighbors exist and the pair is a key,
matching the try/except KeyError). -/
noncomputable def update_losses (x : ℚ) (dat : List (ℚ × ℝ)) (nbrs : List (ℚ × N2))
    (ls : List ((ℚ × ℚ) × ℝ)) (sx : ℚ) (sy : EReal) : List ((ℚ × ℚ) × ℝ) :=
  let e := (lookupA x nbrs).getD (none, none)
  let ls1 := match e.1 with
    | some a => setA (a, x) (interval_loss a x dat sx sy) ls
    | none => ls
  let ls2 := match e.2 with
    | some b => setA (x, b) (interval_loss x b dat sx sy) ls1
    | none => ls1
  match e.1, e.2 with
  | some a, some b => eraseA (a, b) ls2
  | _, _ => ls2

/-- find_neighbors models Learner1D.find_neighbors (lines 249-253): the
bisect position of x in the sorted keys gives the nearest key below and
the nearest key at or above. -/
def find_neighbors (x : ℚ) : List (ℚ × N2) → Option ℚ × Option ℚ
  | [] => (none, none)
  | (a, _) :: l =>
    if x ≤ a then (none, some a)
    else
      let r := find_neighbors x l
      (r.1.orElse (fun _ => some a), r.2)

/-- patchSnd (some a) x sets the second slot (the right neighbor) of the
entry of key a to x, the mutation neighbors.get(x_lower, ...)[1] = x. -/
def patchSnd (k : Option ℚ) (x : ℚ) (l : List (ℚ × N2)) : List (ℚ × N2) :=
  match k with
  | none => l
  | some a => l.map (fun p => if p.1 = a then (p.1, (p.2.1, some x)) else p)

/-- patchFst (some b) x sets the first slot (the left neighbor) of the
entry of key b to x, the mutation neighbors.get(x_upper, ...)[0] = x. -/
def patchFst (k : Option ℚ) (x : ℚ) (l : List (ℚ × N2)) : List (ℚ × N2) :=
  match k with
  | none => l
  | some b => l.map (fun p => if p.1 = b then (p.1, (some x, p.2.2)) else p)

/-- update_neighbors models Learner1D.update_neighbors (lines 255-260):
only a new point changes the structure; its entry is inserted in key
order and the two adjacent entries are patched to point at it. -/
def update_neighbors (x : ℚ) (nbrs : List (ℚ × N2)) : List (ℚ × N2) :=
  if x ∈ keysOf nbrs then nbrs
  else
    let lh := find_neighbors x nbrs
    patchFst lh.2 x (patchSnd lh.1 x (setS x lh nbrs))

/-- npInterp models np.interp(x, xs, ys) for a nonempty sorted xs:
clamped at the ends, piecewise linear inside, exact at the knots. -/
noncomputable def npInterp (x : ℚ) : List (ℚ × ℝ) → ℝ
  | [] => 0
  | [(_, y0)] => y0
  | (x0, y0) :: (x1, y1) :: l =>
    if x ≤ x0 then y0
    else if x ≤ x1 then
      y0 + (y1 - y0) * (((x - x0 : ℚ) : ℝ) / ((x1 - x0 : ℚ) : ℝ))
    else npInterp x ((x1, y1) :: l)

/-- interpolate models Learner1D.interpolate (lines 369-384) with no
extra points: every pending key gets the piecewise linear interpolation
of the real data, or 0 when there is no real data yet. -/
noncomputable def interpolate (dat : List (ℚ × ℝ)) (di : List (ℚ × ℝ)) : List (ℚ × ℝ) :=
  di.map (fun p => (p.1, if dat.isEmpty then 0 else npInterp p.1 dat))

/-- insertPend x di models data_interp[x] = None for the keys: the key is
appended if new; the transient None value is immediately rebuilt by
interpolate, which the caller always runs next, so it is stored as 0. -/
def insertPend (x : ℚ) (di : List (ℚ × ℝ)) : List (ℚ × ℝ) :=
  if x ∈ keysOf di then di else di ++ [(x, 0)]

/-- mergeDicts models the Python merge of two dicts with disjoint updates,
the property data_combined: the first dict in its order with values
overridden by the second, then the new keys of the second. -/
def mergeDicts (dat di : List (ℚ × ℝ)) : List (ℚ × ℝ) :=
  dat.map (fun p => match lookupA p.1 di with | some v => (p.1, v) | none => p)
    ++ di.filter (fun p => p.1 ∉ keysOf dat)

open Classical in
/-- add_point models Learner1D.add_point (lines 272-312) in source order:
data update, neighbor update (combined, then real), scale update,
interpolation for a pending point, loss update (combined, then real), and
for a real point the rescale check.  The rescale condition models the
Python list comparison scale > oldscale * 2 where oldscale * 2 is list
repetition [ox, oy, ox, oy], so lexicographically the branch fires when
sx > ox or (sx = ox and sy > oy) - the factor 2 never multiplies. -/
noncomputable def add_point (s : L1State) (x : ℚ) (y : Option ℝ) : L1State :=
  let real := y.isSome
  let dat := match y with | some v => setS x v s.data | none => s.data
  let di0 := match y with | some _ => eraseA x s.data_interp | none => insertPend x s.data_interp
  let nc := update_neighbors x s.neighbors_combined
  let nr := if real then update_neighbors x s.neighbors else s.neighbors
  let bx : ℚ × ℚ := (min s.bboxX.1 x, max s.bboxX.2 x)
  let bY : EReal × EReal := match y with
    | some v => (min s.bboxY.1 ((v : ℝ) : EReal), max s.bboxY.2 ((v : ℝ) : EReal))
    | none => s.bboxY
  let sx : ℚ := bx.2 - bx.1
  let sy : EReal := bY.2 - bY.1
  let di := if real then di0 else interpolate dat di0
  let dc := mergeDicts dat di
  let lc := update_losses x dc nc s.losses_combined sx sy
  let lr := if real then update_losses x dat nr s.losses sx sy else s.losses
  if real ∧ (s.oldscaleX < sx ∨ (sx = s.oldscaleX ∧ s.oldscaleY < sy)) then
    { bounds := s.bounds, data := dat, data_interp := di,
      losses := lr.map (fun p => (p.1, interval_loss p.1.1 p.1.2 dat sx sy)),
      losses_combined := lc.map (fun p => (p.1, interval_loss p.1.1 p.1.2 dc sx sy)),
      neighbors := nr, neighbors_combined := nc,
      bboxX := bx, bboxY := bY, scaleX := sx, scaleY := sy,
      oldscaleX := sx, oldscaleY := sy }
  else
    { bounds := s.bounds, data := dat, data_interp := di,
      losses := lr, losses_combined := lc,
      neighbors := nr, neighbors_combined := nc,
      bboxX := bx, bboxY := bY, scaleX := sx, scaleY := sy,
      oldscaleX := s.oldscaleX, oldscaleY := s.oldscaleY }

/-- addAll folds add_point over a list of (x, y) operations. -/
noncomputable def addAll (s : L1State) (ops : List (ℚ × Option ℝ)) : L1State :=
  ops.foldl (fun t p => add_point t p.1 p.2) s

/-- loss models Learner1D.loss (lines 231-236): float(inf) for an empty
loss map, else the maximum stored loss. -/
noncomputable def loss (s : L1State) (real : Bool) : EReal :=
  match (if real then s.losses else s.losses_combined) with
  | [] => ⊤
  | p :: rest => ((rest.foldl (fun m q => max m q.2) p.2 : ℝ) : EReal)

/-- remove_unfinished models Learner1D.remove_unfinished (lines 392-395). -/
def remove_unfinished (s : L1State) : L1State :=
  { s with
    data_interp := []
    losses_combined := s.losses
    neighbors_combined := s.neighbors }

/-- missingBounds is the list xs built by choose_points (lines 328-331):
the declared bounds absent from both data and data_interp. -/
def missingBounds (s : L1State) : List ℚ :=
  [s.bounds.1, s.bounds.2].filter
    (fun b => b ∉ keysOf s.data ∧ b ∉ keysOf s.data_interp)

/-- linspace models np.linspace(a, b, n) for n at least 2. -/
def linspace (a b : ℚ) (n : ℕ) : List ℚ :=
  (List.range n).map (fun (i : ℕ) => a + (b - a) * (i : ℚ) / ((n : ℚ) - 1))

/-- pointsIn models the local helper points(x, n) of choose_points
(lines 340-345): the n - 1 equally spaced interior points of interval x. -/
def pointsIn (ab : ℚ × ℚ) (k : ℕ) : List ℚ :=
  if k ≤ 1 then []
  else (List.range (k - 1)).map (fun (i : ℕ) => ab.1 + (ab.2 - ab.1) / (k : ℚ) * ((i : ℚ) + 1))

/-- Trip is one heap entry (-loss, x_range, n). -/
abbrev Trip := ℝ × (ℚ × ℚ) × ℕ

/-- pairLT is the Python lexicographic order on the x_range tuples. -/
def pairLT (p q : ℚ × ℚ) : Prop := p.1 < q.1 ∨ (p.1 = q.1 ∧ p.2 < q.2)

/-- tripLE is the Python lexicographic order on heap entries. -/
def tripLE (u v : Trip) : Prop :=
  u.1 < v.1 ∨ (u.1 = v.1 ∧ (pairLT u.2.1 v.2.1 ∨ (u.2.1 = v.2.1 ∧ u.2.2 ≤ v.2.2)))

/-- updTrip is the replacement entry (quality * n / (n + 1), x, n + 1)
pushed by heapreplace. -/
noncomputable def updTrip (t : Trip) : Trip :=
  (t.1 * (t.2.2 : ℝ) / ((t.2.2 : ℝ) + 1), t.2.1, t.2.2 + 1)

open Classical in
/-- heapreplaceMin models one heapq.heapreplace(quals, updated quals[0]):
pop a minimal entry (heapify ordered the list so that quals[0] is minimal;
among tied entries the heap layout picks one, here the first) and push its
update.  Length and the multiset of counts do not depend on the tie
break, which is all the theorems below use. -/
noncomputable def heapreplaceMin : List Trip → List Trip
  | [] => []
  | t :: ts => if ∀ u ∈ ts, tripLE t u then updTrip t :: ts else t :: heapreplaceMin ts

/-- heapLoop iterates heapreplaceMin n times: the allocation loop of
choose_points (lines 353-355). -/
noncomputable def heapLoop (n : ℕ) (l : List Trip) : List Trip := heapreplaceMin^[n] l

open Classical in
/-- choosePointsCore models the value (xs, loss_improvements) computed by
Learner1D.choose_points for n at least 1: the missing bounds path
(lines 328-338) and the interval subdivision path (lines 340-362). -/
noncomputable def choosePointsCore (s : L1State) (n : ℕ) : List ℚ × List EReal :=
  if missingBounds s ≠ [] then
    if n ≤ 2 then ((missingBounds s).take n, List.replicate n (⊤ : EReal))
    else (linspace s.bounds.1 s.bounds.2 n, List.replicate n (⊤ : EReal))
  else
    let quals : List Trip := s.losses_combined.map (fun p => ((-p.2 : ℝ), p.1, 1))
    let fin := heapLoop n quals
    (fin.flatMap (fun t => pointsIn t.2.1 t.2.2),
     fin.flatMap (fun t => List.replicate t.2.2 (((-t.1 : ℝ)) : EReal)))

open Classical in
/-- choose_points models Learner1D.choose_points (lines 315-367) with its
observable effects.  For n = 0 the source returns a bare list where every
caller unpacks a pair, modelled as an error.  On the missing bounds path
the source returns early and never inserts anything, whatever add_data
is.  On the interval path with add_data the source runs
self.add_data(points, ...) where points is the local helper function, not
the computed xs; iterating it raises TypeError, caught by add_data, which
then calls add_point on the function object itself, raising an uncaught
TypeError inside the SortedDict machinery (the state holds at least one
rational key since both bounds are present): modelled as an error. -/
noncomputable def choose_points (s : L1State) (n : ℕ) (add_data : Bool) :
    Except Unit ((List ℚ × List EReal) × L1State) :=
  if n = 0 then .error ()
  else if missingBounds s ≠ [] then .ok (choosePointsCore s n, s)
  else if add_data then .error ()
  else .ok (choosePointsCore s n, s)

/-- getstate models BaseLearner.__getstate__ (lines 91-92): a deep copy
of the attribute dict, which for a value state is the state itself. -/
def getstate (s : L1State) : L1State := s

/-- setstate models BaseLearner.__setstate__ (lines 94-95). -/
def setstate (state : L1State) : L1State := state

/-- restoreRun models the restore context manager (lines 844-851) around
one learner: capture the state, run the body, and restore the captured
state in the finally block whether or not the body raised. -/
def restoreRun (s : L1State) (body : L1State → Except Unit L1State) :
    Except Unit Unit × L1State :=
  let saved := getstate s
  match body s with
  | .ok _ => (.ok (), setstate saved)
  | .error e => (.error e, setstate saved)

end Learner1D

namespace Learner1D

/-! ### Analysis devices for the neighbor structure invariant

predK and succK compute, for a sorted key list, the nearest key strictly
below and strictly above x; canonEntries rebuilds the neighbor entry list
that the incremental updates of the source are shown to maintain. -/

/-- predK x ks is the greatest key of the sorted list ks strictly below
x, if any. -/
def predK (x : ℚ) : List ℚ → Option ℚ
  | [] => none
  | a :: l => if x ≤ a then none else (predK x l).orElse (fun _ => some a)

/-- succK x ks is the least key of the sorted list ks strictly above x,
if any. -/
def succK (x : ℚ) : List ℚ → Option ℚ
  | [] => none
  | a :: l => if x < a then some a else succK x l

/-- predOr p x ks is predK x ks with the fallback context p used when no
key of ks lies below x. -/
def predOr (p : Option ℚ) (x : ℚ) (ks : List ℚ) : Option ℚ :=
  (predK x ks).orElse (fun _ => p)

/-- canonEntries p ks is the canonical neighbor entry list of the sorted
key list ks, in context p (the key just before ks, none at top level):
every key points at its two adjacent keys. -/
def canonEntries (p : Option ℚ) : List ℚ → List (ℚ × N2)
  | [] => []
  | [a] => [(a, (p, none))]
  | a :: b :: l => (a, (p, some b)) :: canonEntries (some a) (b :: l)

/-- insertK x ks inserts x into the sorted key list ks in order (the key
list effect of a SortedDict insertion). -/
def insertK (x : ℚ) : List ℚ → List ℚ
  | [] => [x]
  | a :: l => if x < a then x :: a :: l else if x = a then a :: l else a :: insertK x l

/-- NbrsGood nbrs states that the neighbor map is sorted by key and its
entries are exactly the canonical adjacent links of its key list. -/
def NbrsGood (nbrs : List (ℚ × N2)) : Prop :=
  (keysOf nbrs).Pairwise (· < ·) ∧ nbrs = canonEntries none (keysOf nbrs)

/-- Adj nbrs a b states that the neighbor map links a to b on the right:
(a, b) is an adjacent pair of the neighbor structure. -/
def Adj (nbrs : List (ℚ × N2)) (a b : ℚ) : Prop :=
  ∃ la, (a, (la, some b)) ∈ nbrs

/-- LossKeysOk nbrs ls states that the loss map has duplicate free keys
and is keyed exactly by the adjacent pairs of the neighbor structure. -/
def LossKeysOk (nbrs : List (ℚ × N2)) (ls : List ((ℚ × ℚ) × ℝ)) : Prop :=
  (keysOf ls).Nodup ∧ ∀ a b : ℚ, (a, b) ∈ keysOf ls ↔ Adj nbrs a b

/-- Inv is the reachable state invariant of Learner1D that claim C10 is
about: both neighbor maps are canonical and both loss maps are keyed by
the adjacent pairs of the corresponding neighbor map. -/
def Inv (s : L1State) : Prop :=
  NbrsGood s.neighbors ∧ NbrsGood s.neighbors_combined ∧
  LossKeysOk s.neighbors s.losses ∧ LossKeysOk s.neighbors_combined s.losses_combined

/-- sideOk nbrs ls is the statement of claim C10 for one pair of maps:
every key of the neighbor map with a left (right) neighbor has a loss
entry for that adjacent pair, and a key without a left (right) neighbor
has no loss entry on that side. -/
def sideOk (nbrs : List (ℚ × N2)) (ls : List ((ℚ × ℚ) × ℝ)) : Prop :=
  ∀ x e, (x, e) ∈ nbrs →
    (∀ a, e.1 = some a → (a, x) ∈ keysOf ls) ∧
    (∀ b, e.2 = some b → (x, b) ∈ keysOf ls) ∧
    (e.1 = none → ∀ a, (a, x) ∉ keysOf ls) ∧
    (e.2 = none → ∀ b, (x, b) ∉ keysOf ls)

end Learner1D

/-! # Theorems -/

namespace AvgState

theorem add_point_some_n (s : AvgState) (k : ℕ) (y : ℝ) :
    (add_point s k (some y)).n = s.n + 1 := rfl

theorem add_point_some_sum_f (s : AvgState) (k : ℕ) (y : ℝ) :
    (add_point s k (some y)).sum_f = s.sum_f + y := rfl

theorem add_point_some_sum_f_sq (s : AvgState) (k : ℕ) (y : ℝ) :
    (add_point s k (some y)).sum_f_sq = s.sum_f_sq + y ^ 2 := rfl

/-- observeAll folds real observations into the state. -/
theorem observe_stats (ps : List (ℕ × ℝ)) : ∀ s : AvgState,
    (ps.foldl (fun t p => add_point t p.1 (some p.2)) s).n = s.n + ps.length ∧
    (ps.foldl (fun t p => add_point t p.1 (some p.2)) s).sum_f
      = s.sum_f + (ps.map Prod.snd).sum ∧
    (ps.foldl (fun t p => add_point t p.1 (some p.2)) s).sum_f_sq
      = s.sum_f_sq + (ps.map (fun p => p.2 ^ 2)).sum := by
  induction ps with
  | nil => intro s; simp
  | cons p ps ih =>
    intro s
    obtain ⟨h1, h2, h3⟩ := ih (add_point s p.1 (some p.2))
    refine ⟨?_, ?_, ?_⟩ <;>
      simp [List.foldl_cons, h1, h2, h3, add_point_some_n,
        add_point_some_sum_f, add_point_some_sum_f_sq] <;> ring

/-- sumSqSub expands the sum of squared deviations from m. -/
theorem sumSqSub (ys : List ℝ) (m : ℝ) :
    (ys.map (fun y => (y - m) ^ 2)).sum
      = (ys.map (fun y => y ^ 2)).sum - 2 * m * ys.sum + ys.length * m ^ 2 := by
  induction ys with
  | nil => simp
  | cons y ys ih => simp [ih]; ring

theorem init_n (atol rtol : Option ℝ) : (init atol rtol).n = 0 := rfl

theorem init_sum_f (atol rtol : Option ℝ) : (init atol rtol).sum_f = 0 := rfl

theorem init_sum_f_sq (atol rtol : Option ℝ) : (init atol rtol).sum_f_sq = 0 := rfl

end AvgState

/-- Claim C3: for the scalar average engine, after observing N real values
with N at least 2, mean equals the arithmetic mean of the observed values
and std equals the Bessel corrected sample standard deviation; for N
smaller than 2, loss(real) returns plus infinity. -/
theorem C3_theorem (atol rtol : Option ℝ) (ps : List (ℕ × ℝ)) :
    (2 ≤ ps.length →
      (ps.foldl (fun t p => AvgState.add_point t p.1 (some p.2))
          (AvgState.init atol rtol)).mean
        = (ps.map Prod.snd).sum / ps.length ∧
      (ps.foldl (fun t p => AvgState.add_point t p.1 (some p.2))
          (AvgState.init atol rtol)).std
        = (((Real.sqrt ((ps.map (fun p =>
            (p.2 - (ps.map Prod.snd).sum / ps.length) ^ 2)).sum
              / ((ps.length : ℝ) - 1))) : ℝ) : EReal)) ∧
    (ps.length < 2 → ∀ r : Bool,
      (ps.foldl (fun t p => AvgState.add_point t p.1 (some p.2))
          (AvgState.init atol rtol)).loss r = some ⊤) := by
  obtain ⟨hn, hf, hsq⟩ := AvgState.observe_stats ps (AvgState.init atol rtol)
  rw [AvgState.init_n, zero_add] at hn
  rw [AvgState.init_sum_f, zero_add] at hf
  rw [AvgState.init_sum_f_sq, zero_add] at hsq
  constructor
  · intro h2
    have hN : (ps.length : ℝ) ≠ 0 := by
      have : 0 < ps.length := lt_of_lt_of_le (by norm_num) h2
      exact_mod_cast this.ne'
    have hmean : (ps.foldl (fun t p => AvgState.add_point t p.1 (some p.2))
        (AvgState.init atol rtol)).mean = (ps.map Prod.snd).sum / ps.length := by
      rw [AvgState.mean, hn, hf]
    refine ⟨hmean, ?_⟩
    have hnotlt : ¬ (ps.foldl (fun t p => AvgState.add_point t p.1 (some p.2))
        (AvgState.init atol rtol)).n < 2 := by rw [hn]; omega
    rw [AvgState.std, if_neg hnotlt, AvgState.stdVal, hmean, hn, hsq]
    congr 1
    have hys : (ps.map (fun p =>
        (p.2 - (ps.map Prod.snd).sum / ps.length) ^ 2)).sum
        = ((ps.map Prod.snd).map (fun y =>
            (y - (ps.map Prod.snd).sum / ps.length) ^ 2)).sum := by
      rw [List.map_map]; rfl
    have hsq2 : (ps.map (fun p => p.2 ^ 2)).sum
        = ((ps.map Prod.snd).map (fun y => y ^ 2)).sum := by
      rw [List.map_map]; rfl
    rw [hys, AvgState.sumSqSub, hsq2]
    have hlen : ((ps.map Prod.snd).length : ℝ) = (ps.length : ℝ) := by simp
    rw [hlen]
    have hN1 : ((ps.length : ℝ) - 1) ≠ 0 := by
      have h2r : (2 : ℝ) ≤ (ps.length : ℝ) := by exact_mod_cast h2
      linarith
    congr 1
    field_simp
    ring
  · intro h2 r
    have hlt : (ps.foldl (fun t p => AvgState.add_point t p.1 (some p.2))
        (AvgState.init atol rtol)).n < 2 := by rw [hn]; omega
    rw [AvgState.loss, if_pos hlt]

/-- Witness for C3 at the concrete inputs [(0, 1), (1, 2)] (for the mean
and std part) and [] (for the small N part). -/
theorem C3_witness :
    (2 ≤ ([((0 : ℕ), (1 : ℝ)), (1, 2)]).length ∧
      (([((0 : ℕ), (1 : ℝ)), (1, 2)]).foldl
          (fun t p => AvgState.add_point t p.1 (some p.2))
          (AvgState.init (some 1) none)).mean
        = (([((0 : ℕ), (1 : ℝ)), (1, 2)]).map Prod.snd).sum
            / ([((0 : ℕ), (1 : ℝ)), (1, 2)]).length) ∧
    (([] : List (ℕ × ℝ)).length < 2 ∧
      ((([] : List (ℕ × ℝ))).foldl
          (fun t p => AvgState.add_point t p.1 (some p.2))
          (AvgState.init (some 1) none)).loss true = some ⊤) :=
  ⟨⟨by decide, ((C3_theorem (some 1) none [((0 : ℕ), (1 : ℝ)), (1, 2)]).1
      (by decide)).1⟩,
   ⟨by decide, (C3_theorem (some 1) none []).2 (by decide) true⟩⟩

/-- Claim C6 (code evaluation at the failing input): constructing the
scalar average engine with atol = 1, proposing one point with
add_data = true and then calling remove_unfinished leaves the pending
sentinel entry in the data map: remove_unfinished (whose docstring says
it removes uncomputed data) purges nothing, so the claim that afterwards
no pending entries remain fails on this engine. -/
theorem C6_theorem :
    AvgState.construct (some 1) none = .ok (AvgState.init (some 1) none) ∧
    (AvgState.remove_unfinished
        (AvgState.choose_points (AvgState.init (some 1) none) 1 true).2).data
      = [((0 : ℕ), (none : Option ℝ))] ∧
    (AvgState.remove_unfinished
        (AvgState.choose_points (AvgState.init (some 1) none) 1 true).2).n_requested
      = 1 := by
  refine ⟨rfl, rfl, rfl⟩

/-- Claim C7 counterexample: loss raises on reachable states.  With
atol = rtol = 1 and the values 1 and -1 observed through direct
add_point calls (two observations, mean zero, nothing requested),
loss(real) raises ZeroDivisionError at standard_error / abs(mean) and
loss(real=False) raises at std / sqrt(n_requested) with n_requested 0;
with atol = 0 and values 1 and 2 loss(real) raises at
standard_error / atol; and in the reachable 2-D state whose four corners
were queued and then dropped by remove_unfinished the corner gate passes
with no points, so loss raises inside the scipy interpolant. -/
theorem C7_counterexample :
    (AvgState.loss
      (AvgState.add_point
        (AvgState.add_point (AvgState.init (some 1) (some 1)) 0 (some 1))
        1 (some (-1))) true = none ∧
    AvgState.loss
      (AvgState.add_point
        (AvgState.add_point (AvgState.init (some 1) (some 1)) 0 (some 1))
        1 (some (-1))) false = none) ∧
    AvgState.loss
      (AvgState.add_point
        (AvgState.add_point (AvgState.init (some 0) none) 0 (some 1))
        1 (some 2)) true = none ∧
    Learner2D.loss (Learner2D.remove_unfinished
        ([((0 : ℚ), (0 : ℚ)), (0, 1), (1, 0), (1, 1)].foldl
          (fun t p => Learner2D.add_point t p none)
          (Learner2D.init ((0, 1), (0, 1))))) true (fun _ _ => 0) = none := by
  have hn : (AvgState.add_point
      (AvgState.add_point (AvgState.init (some 1) (some 1)) 0 (some 1))
      1 (some (-1))).n = 2 := rfl
  have hf : (AvgState.add_point
      (AvgState.add_point (AvgState.init (some 1) (some 1)) 0 (some 1))
      1 (some (-1))).sum_f = 0 + 1 + (-1) := rfl
  have hm : (AvgState.add_point
      (AvgState.add_point (AvgState.init (some 1) (some 1)) 0 (some 1))
      1 (some (-1))).mean = 0 := by
    rw [AvgState.mean, hn, hf]; norm_num
  have hat : (AvgState.add_point
      (AvgState.add_point (AvgState.init (some 1) (some 1)) 0 (some 1))
      1 (some (-1))).atol = some 1 := rfl
  have hn3 : (AvgState.add_point
      (AvgState.add_point (AvgState.init (some 0) none) 0 (some 1))
      1 (some 2)).n = 2 := rfl
  have hat3 : (AvgState.add_point
      (AvgState.add_point (AvgState.init (some 0) none) 0 (some 1))
      1 (some 2)).atol = some 0 := rfl
  refine ⟨⟨?_, ?_⟩, ?_, rfl⟩
  · rw [AvgState.loss, if_neg (by rw [hn]; norm_num),
      if_neg (by rw [if_pos rfl, hn]; norm_num),
      if_neg (by rw [hat]; simp), if_pos hm]
  · rw [AvgState.loss, if_neg (by rw [hn]; norm_num), if_pos (by rfl)]
  · rw [AvgState.loss, if_neg (by rw [hn3]; norm_num),
      if_neg (by rw [if_pos rfl, hn3]; norm_num), if_pos hat3]

theorem le_foldl_max (l : List ((ℚ × ℚ) × ℝ)) :
    ∀ m : ℝ, m ≤ l.foldl (fun m q => max m q.2) m := by
  induction l with
  | nil => intro m; simp
  | cons q l ih => intro m; exact le_trans (le_max_left m q.2) (ih (max m q.2))

/-- Claim C7 (amended): loss degrades to plus infinity with insufficient
data but is not total.  For the scalar average engine loss(real) is plus
infinity below 2 observations, and with at least 2 observations, a
nonzero observed mean and positive tolerances it returns a finite
non-negative value; for the 1-D engine loss never raises and returns
plus infinity or the maximum stored loss, non-negative whenever the
stored losses are; for the 2-D engine loss is plus infinity while some
declared corner is queued.  The division-by-zero paths of the scalar
average engine and the failing 2-D interpolant are the counterexample. -/
theorem C7_theorem (s : AvgState) (t : L1State) (r : Bool) :
    (s.n < 2 → s.loss r = some ⊤) ∧
    (2 ≤ s.n → s.mean ≠ 0 →
      (∀ a ∈ s.atol, 0 < a) → (∀ b ∈ s.rtol, 0 < b) →
      ∃ v : ℝ, s.loss true = some ((v : ℝ) : EReal) ∧ 0 ≤ v) ∧
    ((∀ p ∈ t.losses, (0 : ℝ) ≤ p.2) →
      Learner1D.loss t true = ⊤ ∨
        ∃ v : ℝ, Learner1D.loss t true = ((v : ℝ) : EReal) ∧ 0 ≤ v) ∧
    (∀ (w : L2State) (ip : Bool → L2State → ℝ),
      (∃ p ∈ w.bounds_points, p ∈ w.interp ∨ p ∈ keysOf w.stack) →
      Learner2D.loss w r ip = some ⊤) := by
  refine ⟨?_, ?_, ?_, ?_⟩
  · intro h
    simp [AvgState.loss, h]
  · intro h2 hm ha hb
    have hnotlt : ¬ s.n < 2 := not_lt.2 h2
    have hn0 : ¬ s.n = 0 := by omega
    have hatol : ¬ s.atol = some 0 := by
      intro hh
      exact absurd (ha 0 (by rw [hh]; rfl)) (lt_irrefl 0)
    have hrtol : ¬ s.rtol = some 0 := by
      intro hh
      exact absurd (hb 0 (by rw [hh]; rfl)) (lt_irrefl 0)
    refine ⟨max (AvgState.divTol (s.stdVal / Real.sqrt (s.n : ℝ)) s.atol)
      (AvgState.divTol (s.stdVal / Real.sqrt (s.n : ℝ) / |s.mean|) s.rtol), ?_, ?_⟩
    · simp only [AvgState.loss, hnotlt, if_false, if_neg hn0, if_neg hatol,
        if_neg hm, if_neg hrtol, if_true]
    · have hse : 0 ≤ s.stdVal / Real.sqrt (s.n : ℝ) :=
        div_nonneg (Real.sqrt_nonneg _) (Real.sqrt_nonneg _)
      have h1 : 0 ≤ AvgState.divTol (s.stdVal / Real.sqrt (s.n : ℝ)) s.atol := by
        cases hao : s.atol with
        | none => simp [AvgState.divTol]
        | some a =>
          have := ha a (by rw [hao]; exact rfl)
          simp only [AvgState.divTol]
          exact div_nonneg hse (le_of_lt this)
      exact le_trans h1 (le_max_left _ _)
  · intro hl
    rcases hls : t.losses with _ | ⟨p, rest⟩
    · left; simp [Learner1D.loss, hls]
    · right
      refine ⟨rest.foldl (fun m q => max m q.2) p.2, ?_, ?_⟩
      · simp [Learner1D.loss, hls]
      · have hp : (0 : ℝ) ≤ p.2 := hl p (by rw [hls]; exact List.mem_cons_self p rest)
        exact le_trans hp (le_foldl_max rest p.2)
  · intro w ip hq
    rw [Learner2D.loss, if_pos]
    rw [Learner2D.bounds_are_done]
    exact not_not_intro hq

/-- Witness for C7 at concrete states: a scalar average state with two
observations and mean 3/2 and both tolerances 1, the same engine below 2
observations, a 1-D state with an empty loss map, and the fresh 2-D
engine whose corners are still stacked. -/
theorem C7_witness :
    (∃ v : ℝ, AvgState.loss (⟨some 1, some 1, 2, 0, 3, 5, []⟩ : AvgState) true
        = some ((v : ℝ) : EReal) ∧ 0 ≤ v) ∧
    (AvgState.loss (⟨some 1, some 1, 0, 0, 0, 0, []⟩ : AvgState) true = some ⊤) ∧
    (Learner1D.loss
        (⟨(0, 1), [], [], [], [], [], [], (0, 1), (⊤, ⊥), 1, 0, 1, 0⟩ : L1State)
        true = ⊤ ∨
      ∃ v : ℝ, Learner1D.loss
        (⟨(0, 1), [], [], [], [], [], [], (0, 1), (⊤, ⊥), 1, 0, 1, 0⟩ : L1State)
        true = ((v : ℝ) : EReal) ∧ 0 ≤ v) ∧
    Learner2D.loss (Learner2D.init ((0, 1), (0, 1))) true (fun _ _ => 0)
      = some ⊤ :=
  ⟨(C7_theorem (⟨some 1, some 1, 2, 0, 3, 5, []⟩ : AvgState)
      (⟨(0, 1), [], [], [], [], [], [], (0, 1), (⊤, ⊥), 1, 0, 1, 0⟩ : L1State)
      true).2.1 (by norm_num)
      (by rw [AvgState.mean]; norm_num) (by intro a h; cases h; norm_num)
      (by intro b h; cases h; norm_num),
   (C7_theorem (⟨some 1, some 1, 0, 0, 0, 0, []⟩ : AvgState)
      (⟨(0, 1), [], [], [], [], [], [], (0, 1), (⊤, ⊥), 1, 0, 1, 0⟩ : L1State)
      true).1 (by norm_num),
   (C7_theorem (⟨some 1, some 1, 2, 0, 3, 5, []⟩ : AvgState)
      (⟨(0, 1), [], [], [], [], [], [], (0, 1), (⊤, ⊥), 1, 0, 1, 0⟩ : L1State)
      true).2.2.1 (by intro p h; cases h),
   (C7_theorem (⟨some 1, some 1, 2, 0, 3, 5, []⟩ : AvgState)
      (⟨(0, 1), [], [], [], [], [], [], (0, 1), (⊤, ⊥), 1, 0, 1, 0⟩ : L1State)
      true).2.2.2 (Learner2D.init ((0, 1), (0, 1))) (fun _ _ => 0)
      ⟨((0 : ℚ), (0 : ℚ)), by decide, Or.inr (by decide)⟩⟩

/-- Claim C9: snapshot and unconditional restore for every engine.
Capturing the state, performing any sequence of add_point calls (or
running any body at all, raising or not), and then restoring inside the
context manager yields a state equal to the captured one, hence with the
same data and the same loss, for the 1-D, scalar average and 2-D
engines. -/
theorem C9_theorem (s : L1State) (ops : List (ℚ × Option ℝ)) :
    ((Learner1D.restoreRun s
        (fun t => .ok (Learner1D.addAll t ops))).2.data = s.data ∧
      Learner1D.loss (Learner1D.restoreRun s
        (fun t => .ok (Learner1D.addAll t ops))).2 true = Learner1D.loss s true) ∧
    (∀ body : L1State → Except Unit L1State, (Learner1D.restoreRun s body).2 = s) ∧
    (∀ (a : AvgState) (ps : List (ℕ × Option ℝ)),
      (AvgState.restoreRun a (fun t => .ok
        (ps.foldl (fun u p => AvgState.add_point u p.1 p.2) t))).2.data = a.data ∧
      AvgState.loss (AvgState.restoreRun a (fun t => .ok
        (ps.foldl (fun u p => AvgState.add_point u p.1 p.2) t))).2 true
        = AvgState.loss a true) ∧
    (∀ (a : AvgState) (body : AvgState → Except Unit AvgState),
      (AvgState.restoreRun a body).2 = a) ∧
    (∀ (w : L2State) (qs : List (Pt2 × Option ℝ)),
      (Learner2D.restoreRun w (fun t => .ok
        (qs.foldl (fun u p => Learner2D.add_point u p.1 p.2) t))).2.data
        = w.data) ∧
    (∀ (w : L2State) (body : L2State → Except Unit L2State),
      (Learner2D.restoreRun w body).2 = w) := by
  refine ⟨⟨rfl, rfl⟩, ?_, fun a ps => ⟨rfl, rfl⟩, ?_, fun w qs => rfl, ?_⟩
  · intro body
    rw [Learner1D.restoreRun]
    cases body s with
    | ok t => rfl
    | error e => rfl
  · intro a body
    rw [AvgState.restoreRun]
    cases body a with
    | ok t => rfl
    | error e => rfl
  · intro w body
    rw [Learner2D.restoreRun]
    cases body w with
    | ok t => rfl
    | error e => rfl

/-- Claim C4 counterexample: queue all four corners as pending (which
drains them from the stack) and then call remove_unfinished.  In the
resulting reachable state the corner (0, 0) has not been sampled (it is
not in data) and is not queued (not pending, not stacked), yet loss does
not return plus infinity: bounds_are_done only consults the pending set
and the stack, so the corner gate passes and the source proceeds to
build an interpolant from zero points, raising, which the model returns
as none (not some top). -/
theorem C4_counterexample :
    (((0 : ℚ), (0 : ℚ)) ∈ (Learner2D.remove_unfinished
        ([((0 : ℚ), (0 : ℚ)), (0, 1), (1, 0), (1, 1)].foldl
          (fun t p => Learner2D.add_point t p none)
          (Learner2D.init ((0, 1), (0, 1))))).bounds_points ∧
      ((0 : ℚ), (0 : ℚ)) ∉ keysOf (Learner2D.remove_unfinished
        ([((0 : ℚ), (0 : ℚ)), (0, 1), (1, 0), (1, 1)].foldl
          (fun t p => Learner2D.add_point t p none)
          (Learner2D.init ((0, 1), (0, 1))))).data ∧
      ((0 : ℚ), (0 : ℚ)) ∉ (Learner2D.remove_unfinished
        ([((0 : ℚ), (0 : ℚ)), (0, 1), (1, 0), (1, 1)].foldl
          (fun t p => Learner2D.add_point t p none)
          (Learner2D.init ((0, 1), (0, 1))))).interp ∧
      ((0 : ℚ), (0 : ℚ)) ∉ keysOf (Learner2D.remove_unfinished
        ([((0 : ℚ), (0 : ℚ)), (0, 1), (1, 0), (1, 1)].foldl
          (fun t p => Learner2D.add_point t p none)
          (Learner2D.init ((0, 1), (0, 1))))).stack) ∧
    Learner2D.loss (Learner2D.remove_unfinished
        ([((0 : ℚ), (0 : ℚ)), (0, 1), (1, 0), (1, 1)].foldl
          (fun t p => Learner2D.add_point t p none)
          (Learner2D.init ((0, 1), (0, 1))))) true (fun _ _ => 0) = none := by
  refine ⟨⟨by decide, by decide, by decide, by decide⟩, ?_⟩
  rfl

/-- Claim C4 (amended): the 2-D engine loss is plus infinity exactly while
some declared corner is still queued (pending or stacked); once no corner
is queued (in particular once all four corners carry real values) and at
least 3 points are available, loss returns the maximum per triangle loss
of the (pluggable) loss model over the appropriate interpolant. -/
theorem C4_theorem (s : L2State) (real : Bool) (ipLoss : Bool → L2State → ℝ) :
    ((∃ p ∈ s.bounds_points, p ∈ s.interp ∨ p ∈ keysOf s.stack) →
      Learner2D.loss s real ipLoss = some ⊤) ∧
    ((∀ p ∈ s.bounds_points, p ∉ s.interp ∧ p ∉ keysOf s.stack) →
      3 ≤ (if real then s.data.length else s.data.length + s.interp.length) →
      Learner2D.loss s real ipLoss = some ((ipLoss real s : ℝ) : EReal)) := by
  constructor
  · intro h
    rw [Learner2D.loss, if_pos]
    rw [Learner2D.bounds_are_done]
    exact not_not_intro h
  · intro hdone hcount
    have hbd : Learner2D.bounds_are_done s := by
      rw [Learner2D.bounds_are_done]
      rintro ⟨p, hp, hor⟩
      rcases hor with h1 | h2
      · exact (hdone p hp).1 h1
      · exact (hdone p hp).2 h2
    rw [Learner2D.loss, if_neg (not_not_intro hbd), if_neg (not_lt.2 hcount)]

/-- Witness for C4: with all four corners observed for real (a reachable
state via add_point on each corner of the fresh engine) the corner gate
passes, the data has 4 points, and loss returns the model value; and a
fresh engine (corners stacked) has loss plus infinity. -/
theorem C4_witness :
    Learner2D.loss
        ([((0 : ℚ), (0 : ℚ)), (0, 1), (1, 0), (1, 1)].foldl
          (fun t p => Learner2D.add_point t p (some (0 : ℝ)))
          (Learner2D.init ((0, 1), (0, 1)))) true (fun _ _ => 0)
      = some (((0 : ℝ) : ℝ) : EReal) ∧
    Learner2D.loss (Learner2D.init ((0, 1), (0, 1))) true (fun _ _ => 0)
      = some ⊤ :=
  ⟨(C4_theorem ([((0 : ℚ), (0 : ℚ)), (0, 1), (1, 0), (1, 1)].foldl
      (fun t p => Learner2D.add_point t p (some (0 : ℝ)))
      (Learner2D.init ((0, 1), (0, 1)))) true (fun _ _ => 0)).2
      (by decide) (by decide),
   (C4_theorem (Learner2D.init ((0, 1), (0, 1))) true (fun _ _ => 0)).1
      ⟨((0 : ℚ), (0 : ℚ)), by decide, Or.inr (by decide)⟩⟩

namespace Tri

theorem longest_is_max (t : Tri) :
    edge_lengths t (longestIdx t)
      = max (edge_lengths t 0) (max (edge_lengths t 1) (edge_lengths t 2)) := by
  rw [longestIdx]
  split_ifs with h1 h2
  · have h02 : edge_lengths t 0 ≤ edge_lengths t 2 := by
      rcases h1 with h | h
      · exact le_of_lt (lt_trans h h2)
      · exact le_of_lt h
    rw [max_eq_right (le_of_lt h2), max_eq_right h02]
  · have h01 : edge_lengths t 0 ≤ edge_lengths t 1 := by
      rcases h1 with h | h
      · exact le_of_lt h
      · exact le_of_lt (lt_of_lt_of_le h (not_lt.1 h2))
    rw [max_eq_left (not_lt.1 h2), max_eq_right h01]
  · push_neg at h1
    rw [max_eq_left (max_le h1.1 h1.2)]

theorem badness_nonpos_of_area_neg (t : Tri) (h : area t < 0) : badness t ≤ 0 := by
  rw [badness]
  have h1 : edge_lengths t (longestIdx t) ^ 2 / area t ≤ 0 :=
    div_nonpos_iff.2 (Or.inl ⟨sq_nonneg _, le_of_lt h⟩)
  have h2 : 0 ≤ Real.sqrt 3 / 4 := div_nonneg (Real.sqrt_nonneg 3) (by norm_num)
  exact mul_nonpos_iff.2 (Or.inr ⟨h1, h2⟩)

theorem choose_eq_centroid (t : Tri) (mb : ℝ) (h : badness t ≤ mb) :
    choose_point_in_triangle t mb = centroid t := by
  rw [choose_point_in_triangle, if_neg (not_lt.2 h)]

theorem choose_eq_midpoint (t : Tri) (mb : ℝ) (h : mb < badness t) :
    choose_point_in_triangle t mb = midpointLongest t := by
  rw [choose_point_in_triangle, if_pos h]

theorem badness_eq_spec (t : Tri) (h : 0 < area t) : badness t = specBadness t := by
  rw [badness, specBadness, abs_of_pos h]

theorem sqrt_hundred : Real.sqrt 100 = 10 := by
  rw [show (100 : ℝ) = 10 ^ 2 by norm_num]
  exact Real.sqrt_sq (by norm_num)

end Tri

/-- Claim C8 counterexample: on the clockwise sliver triangle with
vertices (0, 0), (5, 1/10), (10, 0) the badness in the sense of the claim
(longest edge squared over the unsigned area, equilateral normalised to
score 1) exceeds 5, yet the code returns the centroid, not the midpoint
of the longest edge: the source divides by the signed area, which is
negative here, so its badness is negative and the threshold never fires. -/
theorem C8_counterexample :
    5 < Tri.specBadness ⟨(0, 0), (5, 1 / 10), (10, 0)⟩ ∧
    Tri.choose_point_in_triangle ⟨(0, 0), (5, 1 / 10), (10, 0)⟩ 5
      = Tri.centroid ⟨(0, 0), (5, 1 / 10), (10, 0)⟩ ∧
    Tri.centroid ⟨(0, 0), (5, 1 / 10), (10, 0)⟩
      ≠ Tri.midpointLongest ⟨(0, 0), (5, 1 / 10), (10, 0)⟩ := by
  have he0 : Tri.edge_lengths ⟨(0, 0), (5, 1 / 10), (10, 0)⟩ 0 = 10 := by
    show Real.sqrt (((0 : ℝ) - 10) ^ 2 + ((0 : ℝ) - 0) ^ 2) = 10
    rw [show ((0 : ℝ) - 10) ^ 2 + ((0 : ℝ) - 0) ^ 2 = 100 by norm_num]
    exact Tri.sqrt_hundred
  have he1 : Tri.edge_lengths ⟨(0, 0), (5, 1 / 10), (10, 0)⟩ 1
      ≤ Tri.edge_lengths ⟨(0, 0), (5, 1 / 10), (10, 0)⟩ 0 := by
    rw [he0]
    show Real.sqrt (((5 : ℝ) - 0) ^ 2 + ((1 / 10 : ℝ) - 0) ^ 2) ≤ 10
    calc Real.sqrt (((5 : ℝ) - 0) ^ 2 + ((1 / 10 : ℝ) - 0) ^ 2)
        ≤ Real.sqrt 100 := Real.sqrt_le_sqrt (by norm_num)
      _ = 10 := Tri.sqrt_hundred
  have he2 : Tri.edge_lengths ⟨(0, 0), (5, 1 / 10), (10, 0)⟩ 2
      ≤ Tri.edge_lengths ⟨(0, 0), (5, 1 / 10), (10, 0)⟩ 0 := by
    rw [he0]
    show Real.sqrt (((10 : ℝ) - 5) ^ 2 + ((0 : ℝ) - 1 / 10) ^ 2) ≤ 10
    calc Real.sqrt (((10 : ℝ) - 5) ^ 2 + ((0 : ℝ) - 1 / 10) ^ 2)
        ≤ Real.sqrt 100 := Real.sqrt_le_sqrt (by norm_num)
      _ = 10 := Tri.sqrt_hundred
  have hidx : Tri.longestIdx ⟨(0, 0), (5, 1 / 10), (10, 0)⟩ = 0 := by
    rw [Tri.longestIdx, if_neg]
    push_neg
    exact ⟨not_lt.1 (not_lt.2 he1), not_lt.1 (not_lt.2 he2)⟩
  have harea : Tri.area ⟨(0, 0), (5, 1 / 10), (10, 0)⟩ = -(1 / 2) := by
    rw [Tri.area, Tri.cross, Tri.vsub, Tri.vsub]
    norm_num
  have hsq3 : (1 / 10 : ℝ) < Real.sqrt 3 :=
    (Real.lt_sqrt (by norm_num)).2 (by norm_num)
  have h3nn : (0 : ℝ) ≤ Real.sqrt 3 := Real.sqrt_nonneg 3
  refine ⟨?_, ?_, ?_⟩
  · rw [Tri.specBadness, hidx, he0, harea]
    rw [show |(-(1 / 2) : ℝ)| = 1 / 2 by rw [abs_neg, abs_of_pos]; norm_num]
    nlinarith [hsq3]
  · refine Tri.choose_eq_centroid _ _ ?_
    rw [Tri.badness, hidx, he0, harea]
    nlinarith [h3nn]
  · rw [Tri.centroid, Tri.midpointLongest, hidx]
    intro heq
    have h2 := congrArg Prod.snd heq
    simp only [Tri.rollV, Tri.triV] at h2
    norm_num at h2

/-- Claim C8 (amended): the badness the source computes divides by the
signed area: it agrees with the unsigned badness of the claim exactly on
counterclockwise triangles (positive signed area), where the stated rule
holds (above the threshold the midpoint of a longest edge is proposed,
the chosen edge attaining the maximal length, otherwise the centroid);
on clockwise triangles the signed badness is non-positive, so the
centroid is always proposed, whatever the shape. -/
theorem C8_theorem (t : Tri) :
    (0 < Tri.area t → Tri.badness t = Tri.specBadness t) ∧
    (Tri.area t < 0 → Tri.choose_point_in_triangle t 5 = Tri.centroid t) ∧
    (5 < Tri.badness t →
      Tri.choose_point_in_triangle t 5 = Tri.midpointLongest t ∧
      Tri.edge_lengths t (Tri.longestIdx t)
        = max (Tri.edge_lengths t 0)
            (max (Tri.edge_lengths t 1) (Tri.edge_lengths t 2))) ∧
    (Tri.badness t ≤ 5 → Tri.choose_point_in_triangle t 5 = Tri.centroid t) := by
  refine ⟨Tri.badness_eq_spec t, ?_, ?_, Tri.choose_eq_centroid t 5⟩
  · intro h
    exact Tri.choose_eq_centroid t 5
      (le_trans (Tri.badness_nonpos_of_area_neg t h) (by norm_num))
  · intro h
    exact ⟨Tri.choose_eq_midpoint t 5 h, Tri.longest_is_max t⟩

/-- Witness for C8 on the counterclockwise sliver (0,0), (10,0), (5,1/10):
positive signed area and badness above the threshold, so the code and
spec badness agree and the midpoint of the longest edge is proposed. -/
theorem C8_witness :
    (Tri.badness ⟨(0, 0), (10, 0), (5, 1 / 10)⟩
      = Tri.specBadness ⟨(0, 0), (10, 0), (5, 1 / 10)⟩) ∧
    Tri.choose_point_in_triangle ⟨(0, 0), (10, 0), (5, 1 / 10)⟩ 5
      = Tri.midpointLongest ⟨(0, 0), (10, 0), (5, 1 / 10)⟩ := by
  have harea : Tri.area ⟨(0, 0), (10, 0), (5, 1 / 10)⟩ = 1 / 2 := by
    rw [Tri.area, Tri.cross, Tri.vsub, Tri.vsub]
    norm_num
  have he1 : Tri.edge_lengths ⟨(0, 0), (10, 0), (5, 1 / 10)⟩ 1 = 10 := by
    show Real.sqrt (((10 : ℝ) - 0) ^ 2 + ((0 : ℝ) - 0) ^ 2) = 10
    rw [show ((10 : ℝ) - 0) ^ 2 + ((0 : ℝ) - 0) ^ 2 = 100 by norm_num]
    exact Tri.sqrt_hundred
  have he0 : Tri.edge_lengths ⟨(0, 0), (10, 0), (5, 1 / 10)⟩ 0
      < Tri.edge_lengths ⟨(0, 0), (10, 0), (5, 1 / 10)⟩ 1 := by
    rw [he1]
    show Real.sqrt (((0 : ℝ) - 5) ^ 2 + ((0 : ℝ) - 1 / 10) ^ 2) < 10
    rw [Real.sqrt_lt' (by norm_num)]
    norm_num
  have he2 : Tri.edge_lengths ⟨(0, 0), (10, 0), (5, 1 / 10)⟩ 2
      ≤ Tri.edge_lengths ⟨(0, 0), (10, 0), (5, 1 / 10)⟩ 1 := by
    rw [he1]
    show Real.sqrt (((5 : ℝ) - 10) ^ 2 + ((1 / 10 : ℝ) - 0) ^ 2) ≤ 10
    calc Real.sqrt (((5 : ℝ) - 10) ^ 2 + ((1 / 10 : ℝ) - 0) ^ 2)
        ≤ Real.sqrt 100 := Real.sqrt_le_sqrt (by norm_num)
      _ = 10 := Tri.sqrt_hundred
  have hidx : Tri.longestIdx ⟨(0, 0), (10, 0), (5, 1 / 10)⟩ = 1 := by
    rw [Tri.longestIdx, if_pos (Or.inl he0), if_neg (not_lt.2 he2)]
  have hbad : 5 < Tri.badness ⟨(0, 0), (10, 0), (5, 1 / 10)⟩ := by
    rw [Tri.badness, hidx, he1, harea]
    have hsq3 : (1 / 10 : ℝ) < Real.sqrt 3 :=
      (Real.lt_sqrt (by norm_num)).2 (by norm_num)
    nlinarith [hsq3]
  exact ⟨(C8_theorem ⟨(0, 0), (10, 0), (5, 1 / 10)⟩).1 (by rw [harea]; norm_num),
    ((C8_theorem ⟨(0, 0), (10, 0), (5, 1 / 10)⟩).2.2.1 hbad).1⟩

/-- Claim C1 (code evaluation at the failing input): a fresh 1-D engine
on bounds (0, 1), asked for 1 point with add_data = true, returns the
point 0 and completes, but the state is returned unchanged: the bound
point is not inserted into data or data_interp with the pending
sentinel.  (On the interior path the call would not even complete: the
source passes its local helper function instead of the computed points
to add_data, raising TypeError.)  This contradicts the documented
add_data contract of choose_points. -/
theorem C1_theorem :
    Learner1D.choose_points (Learner1D.init (0, 1)) 1 true
      = .ok (([0], [(⊤ : EReal)]), Learner1D.init (0, 1)) ∧
    (Learner1D.init (0, 1)).data = [] ∧
    (Learner1D.init (0, 1)).data_interp = [] :=
  ⟨rfl, rfl, rfl⟩

namespace Learner1D

theorem add_point_scale_proj (s : L1State) (x : ℚ) (v : ℝ) :
    (add_point s x (some v)).bboxX = (min s.bboxX.1 x, max s.bboxX.2 x) ∧
    (add_point s x (some v)).bboxY
      = (min s.bboxY.1 ((v : ℝ) : EReal), max s.bboxY.2 ((v : ℝ) : EReal)) ∧
    (add_point s x (some v)).scaleX = max s.bboxX.2 x - min s.bboxX.1 x ∧
    (add_point s x (some v)).scaleY
      = max s.bboxY.2 ((v : ℝ) : EReal) - min s.bboxY.1 ((v : ℝ) : EReal) := by
  simp only [add_point]
  split_ifs <;> exact ⟨rfl, rfl, rfl, rfl⟩

theorem add_point_oldscale_pos (s : L1State) (x : ℚ) (v : ℝ)
    (hc : s.oldscaleX < max s.bboxX.2 x - min s.bboxX.1 x ∨
      (max s.bboxX.2 x - min s.bboxX.1 x = s.oldscaleX ∧
        s.oldscaleY < max s.bboxY.2 ((v : ℝ) : EReal)
          - min s.bboxY.1 ((v : ℝ) : EReal))) :
    (add_point s x (some v)).oldscaleX = max s.bboxX.2 x - min s.bboxX.1 x ∧
    (add_point s x (some v)).oldscaleY
      = max s.bboxY.2 ((v : ℝ) : EReal) - min s.bboxY.1 ((v : ℝ) : EReal) := by
  simp only [add_point]
  rw [if_pos ⟨rfl, hc⟩]
  exact ⟨rfl, rfl⟩

theorem add_point_oldscale_neg (s : L1State) (x : ℚ) (v : ℝ)
    (hc : ¬ (s.oldscaleX < max s.bboxX.2 x - min s.bboxX.1 x ∨
      (max s.bboxX.2 x - min s.bboxX.1 x = s.oldscaleX ∧
        s.oldscaleY < max s.bboxY.2 ((v : ℝ) : EReal)
          - min s.bboxY.1 ((v : ℝ) : EReal)))) :
    (add_point s x (some v)).oldscaleX = s.oldscaleX ∧
    (add_point s x (some v)).oldscaleY = s.oldscaleY := by
  simp only [add_point]
  rw [if_neg (fun h => hc h.2)]
  exact ⟨rfl, rfl⟩

end Learner1D


/-- Claim C5 (code evaluation at the failing input): on bounds (0, 1),
after add_point(0, 0) and add_point(1, 1) the reference scale is (1, 1);
the further real add_point(1/2, 6/5) grows the data scale only to
(1, 6/5) - no dimension beyond 2 times its reference value - yet the
rescale branch fires and resets the reference scale to (1, 6/5) (and
recomputes every loss): the comparison scale > oldscale * 2 in the
source compares Python lists, where oldscale * 2 is list repetition
[ox, oy, ox, oy], so lexicographically any growth at all triggers the
branch, not growth beyond 2 times. -/
theorem C5_theorem :
    (Learner1D.add_point (Learner1D.add_point (Learner1D.init (0, 1)) 0 (some 0)) 1 (some 1)).oldscaleX = 1 ∧
    (Learner1D.add_point (Learner1D.add_point (Learner1D.init (0, 1)) 0 (some 0)) 1 (some 1)).oldscaleY = ((1 : ℝ) : EReal) ∧
    (Learner1D.add_point (Learner1D.add_point (Learner1D.add_point (Learner1D.init (0, 1)) 0 (some 0)) 1 (some 1)) (1 / 2) (some (6 / 5))).scaleX = 1 ∧
    (Learner1D.add_point (Learner1D.add_point (Learner1D.add_point (Learner1D.init (0, 1)) 0 (some 0)) 1 (some 1)) (1 / 2) (some (6 / 5))).scaleY = ((6 / 5 : ℝ) : EReal) ∧
    (Learner1D.add_point (Learner1D.add_point (Learner1D.add_point (Learner1D.init (0, 1)) 0 (some 0)) 1 (some 1)) (1 / 2) (some (6 / 5))).scaleX ≤ 2 * (Learner1D.add_point (Learner1D.add_point (Learner1D.init (0, 1)) 0 (some 0)) 1 (some 1)).oldscaleX ∧
    (Learner1D.add_point (Learner1D.add_point (Learner1D.add_point (Learner1D.init (0, 1)) 0 (some 0)) 1 (some 1)) (1 / 2) (some (6 / 5))).scaleY ≤ ((2 : ℝ) : EReal) * (Learner1D.add_point (Learner1D.add_point (Learner1D.init (0, 1)) 0 (some 0)) 1 (some 1)).oldscaleY ∧
    (Learner1D.add_point (Learner1D.add_point (Learner1D.add_point (Learner1D.init (0, 1)) 0 (some 0)) 1 (some 1)) (1 / 2) (some (6 / 5))).oldscaleY = ((6 / 5 : ℝ) : EReal) := by
  have hIox : (Learner1D.init (0, 1)).oldscaleX = 1 := by norm_num [Learner1D.init]
  have hIoy : (Learner1D.init (0, 1)).oldscaleY = (0 : EReal) := rfl
  have hIbx1 : (Learner1D.init (0, 1)).bboxX.1 = 0 := rfl
  have hIbx2 : (Learner1D.init (0, 1)).bboxX.2 = 1 := rfl
  have hIby1 : (Learner1D.init (0, 1)).bboxY.1 = (⊤ : EReal) := rfl
  have hIby2 : (Learner1D.init (0, 1)).bboxY.2 = (⊥ : EReal) := rfl
  have e0x : max (Learner1D.init (0, 1)).bboxX.2 (0 : ℚ) - min (Learner1D.init (0, 1)).bboxX.1 0 = 1 := by
    rw [hIbx1, hIbx2]; norm_num
  have e0y : max (Learner1D.init (0, 1)).bboxY.2 ((0 : ℝ) : EReal)
      - min (Learner1D.init (0, 1)).bboxY.1 ((0 : ℝ) : EReal) = (0 : EReal) := by
    rw [hIby1, hIby2, min_top_left, max_bot_left, ← EReal.coe_sub]
    norm_num
  have hc1 : ¬ ((Learner1D.init (0, 1)).oldscaleX < max (Learner1D.init (0, 1)).bboxX.2 0 - min (Learner1D.init (0, 1)).bboxX.1 0 ∨
      (max (Learner1D.init (0, 1)).bboxX.2 0 - min (Learner1D.init (0, 1)).bboxX.1 0 = (Learner1D.init (0, 1)).oldscaleX ∧
        (Learner1D.init (0, 1)).oldscaleY < max (Learner1D.init (0, 1)).bboxY.2 ((0 : ℝ) : EReal)
          - min (Learner1D.init (0, 1)).bboxY.1 ((0 : ℝ) : EReal))) := by
    rw [e0x, e0y, hIox, hIoy]
    rintro (h | ⟨h1, h2⟩)
    · exact lt_irrefl _ h
    · exact lt_irrefl _ h2
  obtain ⟨hox1, hoy1⟩ := Learner1D.add_point_oldscale_neg (Learner1D.init (0, 1)) 0 0 hc1
  rw [hIox] at hox1
  rw [hIoy] at hoy1
  obtain ⟨hbx1, hby1, hsx1, hsy1⟩ := Learner1D.add_point_scale_proj (Learner1D.init (0, 1)) 0 0
  rw [hIbx1, hIbx2] at hbx1
  rw [hIby1, hIby2, min_top_left, max_bot_left] at hby1
  have hbx11 : (Learner1D.add_point (Learner1D.init (0, 1)) 0 (some 0)).bboxX.1 = 0 := by rw [hbx1]; norm_num
  have hbx12 : (Learner1D.add_point (Learner1D.init (0, 1)) 0 (some 0)).bboxX.2 = 1 := by rw [hbx1]; norm_num
  have hby11 : (Learner1D.add_point (Learner1D.init (0, 1)) 0 (some 0)).bboxY.1 = ((0 : ℝ) : EReal) := by rw [hby1]
  have hby12 : (Learner1D.add_point (Learner1D.init (0, 1)) 0 (some 0)).bboxY.2 = ((0 : ℝ) : EReal) := by rw [hby1]
  have e1x : max (Learner1D.add_point (Learner1D.init (0, 1)) 0 (some 0)).bboxX.2 (1 : ℚ) - min (Learner1D.add_point (Learner1D.init (0, 1)) 0 (some 0)).bboxX.1 1 = 1 := by
    rw [hbx11, hbx12]; norm_num
  have e1y : max (Learner1D.add_point (Learner1D.init (0, 1)) 0 (some 0)).bboxY.2 ((1 : ℝ) : EReal)
      - min (Learner1D.add_point (Learner1D.init (0, 1)) 0 (some 0)).bboxY.1 ((1 : ℝ) : EReal) = ((1 : ℝ) : EReal) := by
    rw [hby11, hby12,
      max_eq_right (EReal.coe_le_coe_iff.2 (by norm_num : (0 : ℝ) ≤ 1)),
      min_eq_left (EReal.coe_le_coe_iff.2 (by norm_num : (0 : ℝ) ≤ 1)),
      ← EReal.coe_sub]
    norm_num
  have hc2 : (Learner1D.add_point (Learner1D.init (0, 1)) 0 (some 0)).oldscaleX < max (Learner1D.add_point (Learner1D.init (0, 1)) 0 (some 0)).bboxX.2 1 - min (Learner1D.add_point (Learner1D.init (0, 1)) 0 (some 0)).bboxX.1 1 ∨
      (max (Learner1D.add_point (Learner1D.init (0, 1)) 0 (some 0)).bboxX.2 1 - min (Learner1D.add_point (Learner1D.init (0, 1)) 0 (some 0)).bboxX.1 1 = (Learner1D.add_point (Learner1D.init (0, 1)) 0 (some 0)).oldscaleX ∧
        (Learner1D.add_point (Learner1D.init (0, 1)) 0 (some 0)).oldscaleY < max (Learner1D.add_point (Learner1D.init (0, 1)) 0 (some 0)).bboxY.2 ((1 : ℝ) : EReal)
          - min (Learner1D.add_point (Learner1D.init (0, 1)) 0 (some 0)).bboxY.1 ((1 : ℝ) : EReal)) := by
    refine Or.inr ⟨?_, ?_⟩
    · rw [e1x, hox1]
    · rw [hoy1, e1y]
      exact EReal.coe_lt_coe_iff.2 (by norm_num)
  obtain ⟨hox2, hoy2⟩ := Learner1D.add_point_oldscale_pos (Learner1D.add_point (Learner1D.init (0, 1)) 0 (some 0)) 1 1 hc2
  rw [e1x] at hox2
  rw [e1y] at hoy2
  obtain ⟨hbx2, hby2, hsx2, hsy2⟩ := Learner1D.add_point_scale_proj (Learner1D.add_point (Learner1D.init (0, 1)) 0 (some 0)) 1 1
  rw [hbx11, hbx12] at hbx2
  rw [hby11, hby12,
    max_eq_right (EReal.coe_le_coe_iff.2 (by norm_num : (0 : ℝ) ≤ 1)),
    min_eq_left (EReal.coe_le_coe_iff.2 (by norm_num : (0 : ℝ) ≤ 1))] at hby2
  have hbx21 : (Learner1D.add_point (Learner1D.add_point (Learner1D.init (0, 1)) 0 (some 0)) 1 (some 1)).bboxX.1 = 0 := by rw [hbx2]; norm_num
  have hbx22 : (Learner1D.add_point (Learner1D.add_point (Learner1D.init (0, 1)) 0 (some 0)) 1 (some 1)).bboxX.2 = 1 := by rw [hbx2]; norm_num
  have hby21 : (Learner1D.add_point (Learner1D.add_point (Learner1D.init (0, 1)) 0 (some 0)) 1 (some 1)).bboxY.1 = ((0 : ℝ) : EReal) := by rw [hby2]
  have hby22 : (Learner1D.add_point (Learner1D.add_point (Learner1D.init (0, 1)) 0 (some 0)) 1 (some 1)).bboxY.2 = ((1 : ℝ) : EReal) := by rw [hby2]
  have e2x : max (Learner1D.add_point (Learner1D.add_point (Learner1D.init (0, 1)) 0 (some 0)) 1 (some 1)).bboxX.2 (1 / 2 : ℚ) - min (Learner1D.add_point (Learner1D.add_point (Learner1D.init (0, 1)) 0 (some 0)) 1 (some 1)).bboxX.1 (1 / 2) = 1 := by
    rw [hbx21, hbx22]; norm_num
  have e2y : max (Learner1D.add_point (Learner1D.add_point (Learner1D.init (0, 1)) 0 (some 0)) 1 (some 1)).bboxY.2 ((6 / 5 : ℝ) : EReal)
      - min (Learner1D.add_point (Learner1D.add_point (Learner1D.init (0, 1)) 0 (some 0)) 1 (some 1)).bboxY.1 ((6 / 5 : ℝ) : EReal) = ((6 / 5 : ℝ) : EReal) := by
    rw [hby21, hby22,
      max_eq_right (EReal.coe_le_coe_iff.2 (by norm_num : (1 : ℝ) ≤ 6 / 5)),
      min_eq_left (EReal.coe_le_coe_iff.2 (by norm_num : (0 : ℝ) ≤ 6 / 5)),
      ← EReal.coe_sub]
    norm_num
  have hc3 : (Learner1D.add_point (Learner1D.add_point (Learner1D.init (0, 1)) 0 (some 0)) 1 (some 1)).oldscaleX < max (Learner1D.add_point (Learner1D.add_point (Learner1D.init (0, 1)) 0 (some 0)) 1 (some 1)).bboxX.2 (1 / 2) - min (Learner1D.add_point (Learner1D.add_point (Learner1D.init (0, 1)) 0 (some 0)) 1 (some 1)).bboxX.1 (1 / 2) ∨
      (max (Learner1D.add_point (Learner1D.add_point (Learner1D.init (0, 1)) 0 (some 0)) 1 (some 1)).bboxX.2 (1 / 2) - min (Learner1D.add_point (Learner1D.add_point (Learner1D.init (0, 1)) 0 (some 0)) 1 (some 1)).bboxX.1 (1 / 2) = (Learner1D.add_point (Learner1D.add_point (Learner1D.init (0, 1)) 0 (some 0)) 1 (some 1)).oldscaleX ∧
        (Learner1D.add_point (Learner1D.add_point (Learner1D.init (0, 1)) 0 (some 0)) 1 (some 1)).oldscaleY < max (Learner1D.add_point (Learner1D.add_point (Learner1D.init (0, 1)) 0 (some 0)) 1 (some 1)).bboxY.2 ((6 / 5 : ℝ) : EReal)
          - min (Learner1D.add_point (Learner1D.add_point (Learner1D.init (0, 1)) 0 (some 0)) 1 (some 1)).bboxY.1 ((6 / 5 : ℝ) : EReal)) := by
    refine Or.inr ⟨?_, ?_⟩
    · rw [e2x, hox2]
    · rw [hoy2, e2y]
      exact EReal.coe_lt_coe_iff.2 (by norm_num)
  obtain ⟨hox3, hoy3⟩ := Learner1D.add_point_oldscale_pos (Learner1D.add_point (Learner1D.add_point (Learner1D.init (0, 1)) 0 (some 0)) 1 (some 1)) (1 / 2) (6 / 5) hc3
  rw [e2y] at hoy3
  obtain ⟨hbx3, hby3, hsx3, hsy3⟩ :=
    Learner1D.add_point_scale_proj (Learner1D.add_point (Learner1D.add_point (Learner1D.init (0, 1)) 0 (some 0)) 1 (some 1)) (1 / 2) (6 / 5)
  refine ⟨hox2, hoy2, ?_, ?_, ?_, ?_, hoy3⟩
  · rw [hsx3, e2x]
  · rw [hsy3, e2y]
  · rw [hsx3, e2x, hox2]; norm_num
  · rw [hsy3, e2y, hoy2, ← EReal.coe_mul]
    exact EReal.coe_le_coe_iff.2 (by norm_num)

namespace Learner1D

theorem add_point_data_interp_proj (s : L1State) (x : ℚ) (v : ℝ) :
    (add_point s x (some v)).data = setS x v s.data ∧
    (add_point s x (some v)).data_interp = eraseA x s.data_interp ∧
    (add_point s x (some v)).bounds = s.bounds := by
  simp only [add_point, Option.isSome_some, eq_self_iff_true, true_and, if_true]
  split_ifs <;> exact ⟨rfl, rfl, rfl⟩

theorem heapreplaceMin_length (l : List Trip) :
    (heapreplaceMin l).length = l.length := by
  induction l with
  | nil => rfl
  | cons t ts ih =>
    simp only [heapreplaceMin]
    split_ifs with h
    · rfl
    · simp [ih]

theorem heapreplaceMin_sumk (l : List Trip) (hne : l ≠ []) :
    ((heapreplaceMin l).map (fun t => t.2.2)).sum
      = (l.map (fun t => t.2.2)).sum + 1 := by
  induction l with
  | nil => cases hne rfl
  | cons t ts ih =>
    simp only [heapreplaceMin]
    split_ifs with h
    · simp [updTrip]
      omega
    · rcases ts with _ | ⟨u, us⟩
      · exact absurd (fun u hu => absurd hu (List.not_mem_nil u)) h
      · have := ih (by simp)
        simp only [List.map_cons, List.sum_cons] at this ⊢
        omega

theorem heapreplaceMin_kpos (l : List Trip) (hp : ∀ t ∈ l, 1 ≤ t.2.2) :
    ∀ t ∈ heapreplaceMin l, 1 ≤ t.2.2 := by
  induction l with
  | nil => intro t ht; cases ht
  | cons t ts ih =>
    simp only [heapreplaceMin]
    split_ifs with h
    · intro u hu
      rcases List.mem_cons.1 hu with h1 | h2
      · rw [h1]
        show 1 ≤ (updTrip t).2.2
        rw [show (updTrip t).2.2 = t.2.2 + 1 from rfl]
        omega
      · exact hp u (List.mem_cons_of_mem t h2)
    · intro u hu
      rcases List.mem_cons.1 hu with h1 | h2
      · exact h1 ▸ hp t (List.mem_cons_self t ts)
      · exact ih (fun w hw => hp w (List.mem_cons_of_mem t hw)) u h2

theorem heapLoop_length (n : ℕ) (l : List Trip) :
    (heapLoop n l).length = l.length := by
  induction n with
  | zero => rfl
  | succ n ih =>
    rw [heapLoop, Function.iterate_succ_apply']
    rw [heapreplaceMin_length]
    exact ih

theorem heapLoop_ne_nil (n : ℕ) (l : List Trip) (hne : l ≠ []) :
    heapLoop n l ≠ [] := by
  intro h
  have := heapLoop_length n l
  rw [h] at this
  exact hne (List.length_eq_zero.1 this.symm)

theorem heapLoop_kpos (n : ℕ) (l : List Trip) (hp : ∀ t ∈ l, 1 ≤ t.2.2) :
    ∀ t ∈ heapLoop n l, 1 ≤ t.2.2 := by
  induction n with
  | zero => exact hp
  | succ n ih =>
    rw [heapLoop, Function.iterate_succ_apply']
    exact heapreplaceMin_kpos _ ih

theorem heapLoop_sumk (n : ℕ) (l : List Trip) (hne : l ≠ []) :
    ((heapLoop n l).map (fun t => t.2.2)).sum
      = (l.map (fun t => t.2.2)).sum + n := by
  induction n with
  | zero => rfl
  | succ n ih =>
    rw [heapLoop, Function.iterate_succ_apply']
    rw [show heapreplaceMin^[n] l = heapLoop n l from rfl]
    rw [heapreplaceMin_sumk _ (heapLoop_ne_nil n l hne), ih]
    omega

theorem pointsIn_length (ab : ℚ × ℚ) (k : ℕ) :
    (pointsIn ab k).length = k - 1 := by
  rw [pointsIn]
  split_ifs with h
  · simp only [List.length_nil]
    omega
  · rw [List.length_map, List.length_range]

theorem length_le_sumk (l : List Trip) (hp : ∀ t ∈ l, 1 ≤ t.2.2) :
    l.length ≤ (l.map (fun t => t.2.2)).sum := by
  induction l with
  | nil => simp
  | cons t ts ih =>
    simp only [List.map_cons, List.sum_cons, List.length_cons]
    have h1 := hp t (List.mem_cons_self t ts)
    have h2 := ih (fun w hw => hp w (List.mem_cons_of_mem t hw))
    omega

theorem length_flatMap_points (l : List Trip) (hp : ∀ t ∈ l, 1 ≤ t.2.2) :
    (l.flatMap (fun t => pointsIn t.2.1 t.2.2)).length
      = (l.map (fun t => t.2.2)).sum - l.length := by
  induction l with
  | nil => rfl
  | cons t ts ih =>
    have h1 := hp t (List.mem_cons_self t ts)
    have h2 := length_le_sumk ts (fun w hw => hp w (List.mem_cons_of_mem t hw))
    have h3 := ih (fun w hw => hp w (List.mem_cons_of_mem t hw))
    simp only [List.flatMap_cons, List.length_append, List.map_cons,
      List.sum_cons, List.length_cons, pointsIn_length, h3]
    omega

theorem length_flatMap_replicate (l : List Trip) :
    (l.flatMap (fun t => List.replicate t.2.2 (((-t.1 : ℝ)) : EReal))).length
      = (l.map (fun t => t.2.2)).sum := by
  induction l with
  | nil => rfl
  | cons t ts ih =>
    simp only [List.flatMap_cons, List.length_append, List.map_cons,
      List.sum_cons, List.length_replicate, ih]

theorem sum_map_one {α : Type} (l : List α) :
    (l.map (fun _ => (1 : ℕ))).sum = l.length := by
  induction l with
  | nil => rfl
  | cons a l ih => simp only [List.map_cons, List.sum_cons, List.length_cons, ih]; omega

end Learner1D

/-- Claim C2 counterexample: the 1-D engine on bounds (0, 1) that has
observed only the bound 0 (a reachable state) returns, for
choose_points(2), one point [1] together with two loss improvement
values [inf, inf]: the loss improvement sequence is not parallel to the
returned points and the point count is not n. -/
theorem C2_counterexample :
    Learner1D.choose_points
        (Learner1D.add_point (Learner1D.init (0, 1)) 0 (some 0)) 2 true
      = .ok ((([1] : List ℚ), ([⊤, ⊤] : List EReal)),
          Learner1D.add_point (Learner1D.init (0, 1)) 0 (some 0)) ∧
    ([1] : List ℚ).length ≠ ([⊤, ⊤] : List EReal).length := by
  obtain ⟨hdat, hdi, hbounds⟩ :=
    Learner1D.add_point_data_interp_proj (Learner1D.init (0, 1)) 0 0
  have hmb : Learner1D.missingBounds
      (Learner1D.add_point (Learner1D.init (0, 1)) 0 (some 0)) = [1] := by
    rw [Learner1D.missingBounds, hdat, hdi, hbounds]
    rfl
  refine ⟨?_, by decide⟩
  rw [Learner1D.choose_points, if_neg (by norm_num), if_pos (by rw [hmb]; decide)]
  rw [Learner1D.choosePointsCore, if_pos (by rw [hmb]; decide), if_pos (by norm_num)]
  rw [hmb]
  rfl

/-- Claim C2 (amended): for the 1-D engine with both declared bounds
already present (and a nonempty combined loss map), choose_points(n)
computes exactly n points, but the loss improvement sequence has
n + (number of intervals) entries, one per subdivision count of every
interval rather than one per generated point: the two sequences are not
parallel. -/
theorem C2_theorem (s : L1State) (n : ℕ) (h1 : 1 ≤ n)
    (hb : Learner1D.missingBounds s = []) (hl : s.losses_combined ≠ []) :
    (Learner1D.choosePointsCore s n).1.length = n ∧
    (Learner1D.choosePointsCore s n).2.length
      = n + s.losses_combined.length := by
  have hq : (s.losses_combined.map
      (fun p => ((-p.2, p.1, 1) : Learner1D.Trip))) ≠ [] := by
    intro h
    exact hl (List.map_eq_nil_iff.1 h)
  have hqk : ∀ t ∈ (s.losses_combined.map
      (fun p => ((-p.2, p.1, 1) : Learner1D.Trip))), 1 ≤ t.2.2 := by
    intro t ht
    obtain ⟨p, hp, hpt⟩ := List.mem_map.1 ht
    rw [← hpt]
  have hsum : ((s.losses_combined.map
      (fun p => ((-p.2, p.1, 1) : Learner1D.Trip))).map
        (fun t => t.2.2)).sum = s.losses_combined.length := by
    rw [List.map_map]
    exact Learner1D.sum_map_one s.losses_combined
  have hlen : (s.losses_combined.map
      (fun p => ((-p.2, p.1, 1) : Learner1D.Trip))).length
      = s.losses_combined.length := List.length_map _ _
  rw [Learner1D.choosePointsCore, if_neg (by rw [hb]; exact fun h => h rfl)]
  constructor
  · show ((Learner1D.heapLoop n (s.losses_combined.map
      (fun p => ((-p.2, p.1, 1) : Learner1D.Trip)))).flatMap
        (fun t => Learner1D.pointsIn t.2.1 t.2.2)).length = n
    rw [Learner1D.length_flatMap_points _ (Learner1D.heapLoop_kpos n _ hqk)]
    rw [Learner1D.heapLoop_sumk n _ hq, Learner1D.heapLoop_length n _]
    rw [hsum, hlen]
    omega
  · show ((Learner1D.heapLoop n (s.losses_combined.map
      (fun p => ((-p.2, p.1, 1) : Learner1D.Trip)))).flatMap
        (fun t => List.replicate t.2.2 (((-t.1 : ℝ)) : EReal))).length
      = n + s.losses_combined.length
    rw [Learner1D.length_flatMap_replicate]
    rw [Learner1D.heapLoop_sumk n _ hq, hsum]
    omega

/-- Witness for C2 at a concrete state: bounds (0, 1) both observed, one
interval with stored combined loss 1, and n = 1. -/
theorem C2_witness :
    (Learner1D.choosePointsCore
      (⟨(0, 1), [(0, 0), (1, 0)], [], [], [((0, 1), (1 : ℝ))],
        [(0, (none, some 1)), (1, (some 0, none))],
        [(0, (none, some 1)), (1, (some 0, none))],
        (0, 1), (((0 : ℝ) : EReal), ((0 : ℝ) : EReal)), 1, 0, 1, 0⟩ : L1State)
      1).1.length = 1 ∧
    (Learner1D.choosePointsCore
      (⟨(0, 1), [(0, 0), (1, 0)], [], [], [((0, 1), (1 : ℝ))],
        [(0, (none, some 1)), (1, (some 0, none))],
        [(0, (none, some 1)), (1, (some 0, none))],
        (0, 1), (((0 : ℝ) : EReal), ((0 : ℝ) : EReal)), 1, 0, 1, 0⟩ : L1State)
      1).2.length
      = 1 + (⟨(0, 1), [(0, 0), (1, 0)], [], [], [((0, 1), (1 : ℝ))],
        [(0, (none, some 1)), (1, (some 0, none))],
        [(0, (none, some 1)), (1, (some 0, none))],
        (0, 1), (((0 : ℝ) : EReal), ((0 : ℝ) : EReal)), 1, 0, 1, 0⟩
          : L1State).losses_combined.length :=
  C2_theorem _ 1 (by decide) (by decide) (List.cons_ne_nil _ _)

/-! ## Generic key lemmas for the association list operations -/

theorem keysOf_mem_setA {α β : Type} [DecidableEq α] (k q : α) (v : β)
    (l : List (α × β)) : q ∈ keysOf (setA k v l) ↔ q = k ∨ q ∈ keysOf l := by
  induction l with
  | nil => simp [setA, keysOf]
  | cons p l ih =>
    rw [setA]
    split_ifs with h
    · subst h
      simp [keysOf]
    · simp only [keysOf, List.map_cons, List.mem_cons] at ih ⊢
      rw [ih]
      tauto

theorem nodup_setA {α β : Type} [DecidableEq α] (k : α) (v : β)
    (l : List (α × β)) (h : (keysOf l).Nodup) : (keysOf (setA k v l)).Nodup := by
  induction l with
  | nil => simp [setA, keysOf]
  | cons p l ih =>
    rw [setA]
    split_ifs with hk
    · subst hk
      simpa [keysOf] using h
    · simp only [keysOf, List.map_cons, List.nodup_cons] at h ⊢
      refine ⟨fun hc => ?_, ih h.2⟩
      have := (keysOf_mem_setA k p.1 v l).1 hc
      rcases this with h1 | h2
      · exact hk h1.symm
      · exact h.1 h2

theorem eraseA_not_mem {α β : Type} [DecidableEq α] (k : α)
    (l : List (α × β)) (h : k ∉ keysOf l) : eraseA k l = l := by
  induction l with
  | nil => rfl
  | cons p l ih =>
    simp only [keysOf, List.map_cons, List.mem_cons] at h
    push_neg at h
    rw [eraseA, if_neg h.1, ih h.2]

theorem keysOf_mem_eraseA {α β : Type} [DecidableEq α] (k q : α)
    (l : List (α × β)) (h : (keysOf l).Nodup) :
    q ∈ keysOf (eraseA k l) ↔ q ∈ keysOf l ∧ q ≠ k := by
  induction l with
  | nil => simp [eraseA, keysOf]
  | cons p l ih =>
    simp only [keysOf, List.map_cons, List.nodup_cons] at h
    rw [eraseA]
    split_ifs with hk
    · subst hk
      simp only [keysOf, List.map_cons, List.mem_cons]
      constructor
      · intro hq
        exact ⟨Or.inr hq, fun he => h.1 (he ▸ hq)⟩
      · rintro ⟨h1 | h2, hne⟩
        · exact absurd h1 hne
        · exact h2
    · simp only [keysOf, List.map_cons, List.mem_cons] at ih ⊢
      rw [ih h.2]
      constructor
      · rintro (h1 | ⟨h2, h3⟩)
        · exact ⟨Or.inl h1, fun he => hk (h1 ▸ he).symm⟩
        · exact ⟨Or.inr h2, h3⟩
      · rintro ⟨h1 | h2, hne⟩
        · exact Or.inl h1
        · exact Or.inr ⟨h2, hne⟩

theorem nodup_eraseA {α β : Type} [DecidableEq α] (k : α)
    (l : List (α × β)) (h : (keysOf l).Nodup) : (keysOf (eraseA k l)).Nodup := by
  induction l with
  | nil => simp [eraseA, keysOf]
  | cons p l ih =>
    simp only [keysOf, List.map_cons, List.nodup_cons] at h
    rw [eraseA]
    split_ifs with hk
    · exact h.2
    · simp only [keysOf, List.map_cons, List.nodup_cons]
      refine ⟨fun hc => ?_, ih h.2⟩
      exact h.1 ((keysOf_mem_eraseA k p.1 l h.2).1 hc).1

theorem lookupA_eq_some {α β : Type} [DecidableEq α] (k : α) (v : β)
    (l : List (α × β)) (h : (keysOf l).Nodup) :
    lookupA k l = some v ↔ (k, v) ∈ l := by
  induction l with
  | nil => simp [lookupA]
  | cons p l ih =>
    simp only [keysOf, List.map_cons, List.nodup_cons] at h
    rw [lookupA]
    split_ifs with hk
    · subst hk
      simp only [List.mem_cons, Option.some_inj]
      constructor
      · intro hv
        left
        rw [← hv]
      · rintro (h1 | h2)
        · exact (congrArg Prod.snd h1).symm
        · exact absurd (List.mem_map_of_mem Prod.fst h2) (by exact h.1)
    · rw [ih h.2]
      simp only [List.mem_cons]
      constructor
      · exact Or.inr
      · rintro (h1 | h2)
        · exact absurd (congrArg Prod.fst h1) hk
        · exact h2

namespace Learner1D

theorem predK_nil (x : ℚ) : predK x [] = none := rfl

theorem predK_cons_le (x a : ℚ) (l : List ℚ) (h : x ≤ a) :
    predK x (a :: l) = none := by rw [predK, if_pos h]

theorem predK_cons_gt (x a : ℚ) (l : List ℚ) (h : a < x) :
    predK x (a :: l) = (predK x l).orElse (fun _ => some a) := by
  rw [predK, if_neg (not_le.2 h)]

theorem succK_nil (x : ℚ) : succK x [] = none := rfl

theorem succK_cons_lt (x a : ℚ) (l : List ℚ) (h : x < a) :
    succK x (a :: l) = some a := by rw [succK, if_pos h]

theorem succK_cons_ge (x a : ℚ) (l : List ℚ) (h : ¬ x < a) :
    succK x (a :: l) = succK x l := by rw [succK, if_neg h]

theorem predOr_none (x : ℚ) (ks : List ℚ) : predOr none x ks = predK x ks := by
  rw [predOr]
  cases predK x ks <;> rfl

theorem predOr_cons_gt (p : Option ℚ) (x a : ℚ) (l : List ℚ) (h : a < x) :
    predOr p x (a :: l) = predOr (some a) x l := by
  rw [predOr, predOr, predK_cons_gt x a l h]
  cases predK x l <;> rfl

theorem predOr_cons_le (p : Option ℚ) (x a : ℚ) (l : List ℚ) (h : x ≤ a) :
    predOr p x (a :: l) = p := by
  rw [predOr, predK_cons_le x a l h]
  rfl

theorem predK_mem (x : ℚ) (ks : List ℚ) (a : ℚ) (h : predK x ks = some a) :
    a ∈ ks ∧ a < x := by
  induction ks with
  | nil => cases h
  | cons c l ih =>
    by_cases hc : x ≤ c
    · rw [predK_cons_le x c l hc] at h
      cases h
    · push_neg at hc
      rw [predK_cons_gt x c l hc] at h
      rcases hp : predK x l with _ | t
      · rw [hp] at h
        simp only [Option.orElse] at h
        cases h
        exact ⟨List.mem_cons_self a l, hc⟩
      · rw [hp] at h
        simp only [Option.orElse] at h
        cases h
        obtain ⟨h1, h2⟩ := ih hp
        exact ⟨List.mem_cons_of_mem c h1, h2⟩

theorem succK_mem (x : ℚ) (ks : List ℚ) (b : ℚ) (h : succK x ks = some b) :
    b ∈ ks ∧ x < b := by
  induction ks with
  | nil => cases h
  | cons c l ih =>
    by_cases hc : x < c
    · rw [succK_cons_lt x c l hc] at h
      cases h
      exact ⟨List.mem_cons_self b l, hc⟩
    · rw [succK_cons_ge x c l hc] at h
      obtain ⟨h1, h2⟩ := ih h
      exact ⟨List.mem_cons_of_mem c h1, h2⟩

theorem keysOf_canon (p : Option ℚ) (ks : List ℚ) :
    keysOf (canonEntries p ks) = ks := by
  induction ks generalizing p with
  | nil => rfl
  | cons a l ih =>
    cases l with
    | nil => rfl
    | cons b l2 =>
      rw [canonEntries]
      simp only [keysOf, List.map_cons]
      rw [show List.map Prod.fst (canonEntries (some a) (b :: l2))
        = keysOf (canonEntries (some a) (b :: l2)) from rfl, ih]

theorem find_eq (x : ℚ) (nbrs : List (ℚ × N2)) (hx : x ∉ keysOf nbrs) :
    find_neighbors x nbrs = (predK x (keysOf nbrs), succK x (keysOf nbrs)) := by
  induction nbrs with
  | nil => rfl
  | cons p l ih =>
    simp only [keysOf, List.map_cons, List.mem_cons] at hx
    push_neg at hx
    rw [find_neighbors]
    split_ifs with h
    · have hlt : x < p.1 := lt_of_le_of_ne h hx.1
      rw [show keysOf (p :: l) = p.1 :: keysOf l from rfl,
        predK_cons_le x p.1 (keysOf l) h, succK_cons_lt x p.1 (keysOf l) hlt]
    · push_neg at h
      rw [ih hx.2]
      rw [show keysOf (p :: l) = p.1 :: keysOf l from rfl,
        predK_cons_gt x p.1 (keysOf l) h,
        succK_cons_ge x p.1 (keysOf l) (not_lt.2 (le_of_lt h))]

end Learner1D

namespace Learner1D

theorem mem_canon (ks : List ℚ) (p : Option ℚ) (hs : ks.Pairwise (· < ·))
    (y : ℚ) (e : N2) :
    (y, e) ∈ canonEntries p ks ↔ y ∈ ks ∧ e = (predOr p y ks, succK y ks) := by
  induction ks generalizing p with
  | nil => simp [canonEntries]
  | cons a l ih =>
    cases l with
    | nil =>
      simp only [canonEntries, List.mem_singleton, List.mem_cons,
        List.not_mem_nil, or_false]
      constructor
      · intro h
        rw [Prod.mk.injEq] at h
        obtain ⟨h1, h2⟩ := h
        subst h1
        refine ⟨rfl, ?_⟩
        rw [h2, predOr_cons_le p y y [] le_rfl,
          succK_cons_ge y y [] (lt_irrefl y), succK_nil]
      · rintro ⟨h1, h2⟩
        subst h1
        rw [predOr_cons_le p y y [] le_rfl,
          succK_cons_ge y y [] (lt_irrefl y), succK_nil] at h2
        rw [h2]
    | cons b l2 =>
      rw [canonEntries]
      have hs2 : (b :: l2).Pairwise (· < ·) := (List.pairwise_cons.1 hs).2
      have hab : ∀ w ∈ b :: l2, a < w := (List.pairwise_cons.1 hs).1
      simp only [List.mem_cons]
      constructor
      · rintro (h | h)
        · rw [Prod.mk.injEq] at h
          obtain ⟨h1, h2⟩ := h
          subst h1
          refine ⟨Or.inl rfl, ?_⟩
          rw [h2, predOr_cons_le p y y (b :: l2) le_rfl,
            succK_cons_ge y y (b :: l2) (lt_irrefl y),
            succK_cons_lt y b l2 (hab b (List.mem_cons_self b l2))]
        · obtain ⟨h1, h2⟩ := (ih (some a) hs2).1 h
          have hay : a < y := hab y h1
          refine ⟨Or.inr (List.mem_cons.1 h1), ?_⟩
          rw [h2, predOr_cons_gt p y a (b :: l2) hay,
            succK_cons_ge y a (b :: l2) (not_lt.2 (le_of_lt hay))]
      · rintro ⟨h1 | h1, h2⟩
        · subst h1
          left
          rw [Prod.mk.injEq]
          refine ⟨rfl, ?_⟩
          rw [h2, predOr_cons_le p y y (b :: l2) le_rfl,
            succK_cons_ge y y (b :: l2) (lt_irrefl y),
            succK_cons_lt y b l2 (hab b (List.mem_cons_self b l2))]
        · right
          have hay : a < y := hab y (List.mem_cons.2 h1)
          refine (ih (some a) hs2).2 ⟨List.mem_cons.2 h1, ?_⟩
          rw [h2, predOr_cons_gt p y a (b :: l2) hay,
            succK_cons_ge y a (b :: l2) (not_lt.2 (le_of_lt hay))]

theorem nodup_of_sorted (ks : List ℚ) (hs : ks.Pairwise (· < ·)) : ks.Nodup :=
  List.Pairwise.imp (fun h => ne_of_lt h) hs

theorem adj_canon (ks : List ℚ) (hs : ks.Pairwise (· < ·)) (a b : ℚ) :
    Adj (canonEntries none ks) a b ↔ a ∈ ks ∧ succK a ks = some b := by
  rw [Adj]
  constructor
  · rintro ⟨la, hla⟩
    obtain ⟨h1, h2⟩ := (mem_canon ks none hs a (la, some b)).1 hla
    rw [Prod.mk.injEq] at h2
    exact ⟨h1, h2.2.symm⟩
  · rintro ⟨h1, h2⟩
    exact ⟨predOr none a ks, (mem_canon ks none hs a _).2 ⟨h1, by rw [h2]⟩⟩

theorem lookup_canon (ks : List ℚ) (hs : ks.Pairwise (· < ·)) (x : ℚ)
    (hx : x ∈ ks) :
    lookupA x (canonEntries none ks) = some (predK x ks, succK x ks) := by
  have hnd : (keysOf (canonEntries none ks)).Nodup := by
    rw [keysOf_canon]
    exact nodup_of_sorted ks hs
  rw [lookupA_eq_some _ _ _ hnd, mem_canon ks none hs, predOr_none]
  exact ⟨hx, rfl⟩

end Learner1D

namespace Learner1D

theorem pred_succ (x a : ℚ) (ks : List ℚ) :
    ks.Pairwise (· < ·) → x ∈ ks → predK x ks = some a → succK a ks = some x := by
  induction ks with
  | nil => intro _ hx _; cases hx
  | cons c l ih =>
    intro hs hx h
    have hcl : ∀ w ∈ l, c < w := (List.pairwise_cons.1 hs).1
    have hsl : l.Pairwise (· < ·) := (List.pairwise_cons.1 hs).2
    by_cases hxc : x ≤ c
    · rw [predK_cons_le x c l hxc] at h
      cases h
    · push_neg at hxc
      have hxl : x ∈ l := by
        rcases List.mem_cons.1 hx with h1 | h1
        · exact absurd h1 (ne_of_gt hxc)
        · exact h1
      rw [predK_cons_gt x c l hxc] at h
      rcases hp : predK x l with _ | t
      · rw [hp] at h
        have hca : c = a := by simpa [Option.orElse] using h
        subst hca
        rw [succK_cons_ge c c l (lt_irrefl c)]
        cases l with
        | nil => cases hxl
        | cons d l2 =>
          have hxd : x = d := by
            by_cases hle : x ≤ d
            · rcases List.mem_cons.1 hxl with h1 | h1
              · exact h1
              · have hdx := (List.pairwise_cons.1 hsl).1 x h1
                exact absurd hle (not_le.2 hdx)
            · push_neg at hle
              rw [predK_cons_gt x d l2 hle] at hp
              cases hpp : predK x l2 <;> rw [hpp] at hp <;>
                simp [Option.orElse] at hp
          subst hxd
          exact succK_cons_lt c x l2 hxc
      · rw [hp] at h
        have hta : t = a := by simpa [Option.orElse] using h
        subst hta
        have htl := (predK_mem x l t hp).1
        rw [succK_cons_ge t c l (not_lt.2 (le_of_lt (hcl t htl)))]
        exact ih hsl hxl hp

theorem succ_pred (x a : ℚ) (ks : List ℚ) :
    ks.Pairwise (· < ·) → a ∈ ks → succK a ks = some x → predK x ks = some a := by
  induction ks with
  | nil => intro _ ha _; cases ha
  | cons c l ih =>
    intro hs ha h
    have hcl : ∀ w ∈ l, c < w := (List.pairwise_cons.1 hs).1
    have hsl : l.Pairwise (· < ·) := (List.pairwise_cons.1 hs).2
    by_cases hac : a = c
    · subst hac
      rw [succK_cons_ge a a l (lt_irrefl a)] at h
      obtain ⟨hxl, hax⟩ := succK_mem a l x h
      rw [predK_cons_gt x a l hax]
      cases l with
      | nil => cases hxl
      | cons d l2 =>
        have hxd : x = d := by
          rw [succK_cons_lt a d l2 (hcl d (List.mem_cons_self d l2))] at h
          injection h with h
          exact h.symm
        subst hxd
        rw [predK_cons_le x x l2 le_rfl]
        rfl
    · have hal : a ∈ l := (List.mem_cons.1 ha).resolve_left hac
      have hca : c < a := hcl a hal
      rw [succK_cons_ge a c l (not_lt.2 (le_of_lt hca))] at h
      have hres := ih hsl hal h
      have hcx : c < x := lt_trans hca (succK_mem a l x h).2
      rw [predK_cons_gt x c l hcx, hres]
      rfl

theorem mem_insertK (x y : ℚ) (ks : List ℚ) :
    y ∈ insertK x ks ↔ y = x ∨ y ∈ ks := by
  induction ks with
  | nil => simp [insertK]
  | cons a l ih =>
    rw [insertK]
    split_ifs with h1 h2
    · simp only [List.mem_cons]
    · subst h2
      simp only [List.mem_cons]
      tauto
    · simp only [List.mem_cons, ih]
      tauto

theorem pairwise_insertK (x : ℚ) (ks : List ℚ) (hs : ks.Pairwise (· < ·))
    (hx : x ∉ ks) : (insertK x ks).Pairwise (· < ·) := by
  induction ks with
  | nil => simp [insertK]
  | cons a l ih =>
    have hcl : ∀ w ∈ l, a < w := (List.pairwise_cons.1 hs).1
    have hsl : l.Pairwise (· < ·) := (List.pairwise_cons.1 hs).2
    have hxa : x ≠ a := fun h => hx (h ▸ List.mem_cons_self a l)
    have hxl : x ∉ l := fun h => hx (List.mem_cons_of_mem a h)
    rw [insertK]
    split_ifs with h1
    · refine List.pairwise_cons.2 ⟨?_, hs⟩
      intro w hw
      rcases List.mem_cons.1 hw with h | h
      · exact h ▸ h1
      · exact lt_trans h1 (hcl w h)
    · push_neg at h1
      have hax : a < x := lt_of_le_of_ne h1 (Ne.symm hxa)
      refine List.pairwise_cons.2 ⟨?_, ih hsl hxl⟩
      intro w hw
      rcases (mem_insertK x w l).1 hw with h | h
      · exact h ▸ hax
      · exact hcl w h

theorem predK_insertK (x : ℚ) (ks : List ℚ) (hx : x ∉ ks) :
    predK x (insertK x ks) = predK x ks := by
  induction ks with
  | nil =>
    rw [insertK, predK_cons_le x x [] le_rfl, predK_nil]
  | cons a l ih =>
    have hxa : x ≠ a := fun h => hx (h ▸ List.mem_cons_self a l)
    have hxl : x ∉ l := fun h => hx (List.mem_cons_of_mem a h)
    rw [insertK]
    split_ifs with h1
    · rw [predK_cons_le x x (a :: l) le_rfl, predK_cons_le x a l (le_of_lt h1)]
    · push_neg at h1
      have hax : a < x := lt_of_le_of_ne h1 (Ne.symm hxa)
      rw [predK_cons_gt x a (insertK x l) hax, predK_cons_gt x a l hax, ih hxl]

theorem succK_insertK (x : ℚ) (ks : List ℚ) (hx : x ∉ ks) :
    succK x (insertK x ks) = succK x ks := by
  induction ks with
  | nil =>
    rw [insertK, succK_cons_ge x x [] (lt_irrefl x)]
  | cons a l ih =>
    have hxa : x ≠ a := fun h => hx (h ▸ List.mem_cons_self a l)
    have hxl : x ∉ l := fun h => hx (List.mem_cons_of_mem a h)
    rw [insertK]
    split_ifs with h1
    · rw [succK_cons_ge x x (a :: l) (lt_irrefl x)]
    · push_neg at h1
      have hax : a < x := lt_of_le_of_ne h1 (Ne.symm hxa)
      rw [succK_cons_ge x a (insertK x l) (not_lt.2 (le_of_lt hax)),
        succK_cons_ge x a l (not_lt.2 (le_of_lt hax)), ih hxl]

theorem insertK_eq_cons (x : ℚ) (ks : List ℚ) (hx : x ∉ ks)
    (hp : predK x ks = none) : insertK x ks = x :: ks := by
  cases ks with
  | nil => rfl
  | cons a l =>
    by_cases h1 : x ≤ a
    · have hlt : x < a :=
        lt_of_le_of_ne h1 (fun h => hx (h ▸ List.mem_cons_self a l))
      rw [insertK, if_pos hlt]
    · push_neg at h1
      rw [predK_cons_gt x a l h1] at hp
      cases hpp : predK x l <;> rw [hpp] at hp <;> simp [Option.orElse] at hp

end Learner1D

namespace Learner1D

theorem keysOf_cons {α β : Type} (q : α × β) (t : List (α × β)) :
    keysOf (q :: t) = q.1 :: keysOf t := rfl

theorem setS_cons_lt {β : Type} (k : ℚ) (v : β) (a : ℚ) (b : β)
    (l : List (ℚ × β)) (h : k < a) :
    setS k v ((a, b) :: l) = (k, v) :: (a, b) :: l := by
  rw [setS, if_pos h]

theorem setS_cons_gt {β : Type} (k : ℚ) (v : β) (a : ℚ) (b : β)
    (l : List (ℚ × β)) (h : a < k) :
    setS k v ((a, b) :: l) = (a, b) :: setS k v l := by
  rw [setS, if_neg (not_lt.2 (le_of_lt h)), if_neg (ne_of_gt h)]

theorem patchSnd_none (x : ℚ) (l : List (ℚ × N2)) : patchSnd none x l = l := rfl

theorem patchFst_none (x : ℚ) (l : List (ℚ × N2)) : patchFst none x l = l := rfl

theorem patchSnd_cons_eq (u x : ℚ) (e : N2) (t : List (ℚ × N2)) :
    patchSnd (some u) x ((u, e) :: t) = (u, (e.1, some x)) :: patchSnd (some u) x t := by
  simp [patchSnd]

theorem patchSnd_cons_ne (u x a : ℚ) (e : N2) (t : List (ℚ × N2)) (h : a ≠ u) :
    patchSnd (some u) x ((a, e) :: t) = (a, e) :: patchSnd (some u) x t := by
  simp [patchSnd, h]

theorem patchFst_cons_eq (b x : ℚ) (e : N2) (t : List (ℚ × N2)) :
    patchFst (some b) x ((b, e) :: t) = (b, (some x, e.2)) :: patchFst (some b) x t := by
  simp [patchFst]

theorem patchFst_cons_ne (b x a : ℚ) (e : N2) (t : List (ℚ × N2)) (h : a ≠ b) :
    patchFst (some b) x ((a, e) :: t) = (a, e) :: patchFst (some b) x t := by
  simp [patchFst, h]

theorem patchSnd_not_mem (u x : ℚ) (l : List (ℚ × N2)) (h : u ∉ keysOf l) :
    patchSnd (some u) x l = l := by
  induction l with
  | nil => rfl
  | cons q t ih =>
    have h1 : q.1 ≠ u := fun hh => h (by rw [keysOf_cons]; exact List.mem_cons.2 (Or.inl hh.symm))
    have h2 : u ∉ keysOf t := fun hh => h (by rw [keysOf_cons]; exact List.mem_cons.2 (Or.inr hh))
    show (if q.1 = u then (q.1, (q.2.1, some x)) else q) :: patchSnd (some u) x t = q :: t
    rw [if_neg h1, ih h2]

theorem patchFst_not_mem (u x : ℚ) (l : List (ℚ × N2)) (h : u ∉ keysOf l) :
    patchFst (some u) x l = l := by
  induction l with
  | nil => rfl
  | cons q t ih =>
    have h1 : q.1 ≠ u := fun hh => h (by rw [keysOf_cons]; exact List.mem_cons.2 (Or.inl hh.symm))
    have h2 : u ∉ keysOf t := fun hh => h (by rw [keysOf_cons]; exact List.mem_cons.2 (Or.inr hh))
    show (if q.1 = u then (q.1, (some x, q.2.2)) else q) :: patchFst (some u) x t = q :: t
    rw [if_neg h1, ih h2]

theorem canon_cons (p : Option ℚ) (a : ℚ) (t : List ℚ) :
    canonEntries p (a :: t) = (a, (p, t.head?)) :: canonEntries (some a) t := by
  cases t <;> rfl

theorem insertK_mem (x : ℚ) (ks : List ℚ) (hs : ks.Pairwise (· < ·))
    (hx : x ∈ ks) : insertK x ks = ks := by
  induction ks with
  | nil => cases hx
  | cons a l ih =>
    have hal : ∀ w ∈ l, a < w := (List.pairwise_cons.1 hs).1
    have hsl : l.Pairwise (· < ·) := (List.pairwise_cons.1 hs).2
    rcases List.mem_cons.1 hx with he | hm
    · subst he
      rw [insertK, if_neg (lt_irrefl _), if_pos rfl]
    · have hax : a < x := hal x hm
      rw [insertK, if_neg (not_lt.2 (le_of_lt hax)), if_neg (ne_of_gt hax), ih hsl hm]

theorem insertK_head_none (x : ℚ) (l : List ℚ) (hx : x ∉ l)
    (h : predK x l = none) : (insertK x l).head? = some x := by
  cases l with
  | nil => rfl
  | cons b l₂ =>
    have hxb : x < b := by
      by_contra hnb
      have hbx : b < x := lt_of_le_of_ne (not_lt.1 hnb)
        (fun hh => hx (by rw [← hh]; exact List.mem_cons_self b l₂))
      rw [predK_cons_gt x b l₂ hbx] at h
      cases hpp : predK x l₂ <;> rw [hpp] at h <;> exact Option.noConfusion h
    rw [insertK, if_pos hxb]
    rfl

theorem insertK_head_some (x : ℚ) (l : List ℚ) (u : ℚ) (hx : x ∉ l)
    (h : predK x l = some u) : (insertK x l).head? = l.head? := by
  cases l with
  | nil => rw [predK_nil] at h; cases h
  | cons b l₂ =>
    have hbx : b < x := by
      by_contra hnb
      rw [predK_cons_le x b l₂ (not_lt.1 hnb)] at h
      cases h
    have hxb : x ≠ b := fun hh => hx (by rw [hh]; exact List.mem_cons_self b l₂)
    rw [insertK, if_neg (not_lt.2 (le_of_lt hbx)), if_neg hxb]
    rfl

theorem comp_insert (x : ℚ) (p : Option ℚ) (ks : List ℚ)
    (hs : ks.Pairwise (· < ·)) (hx : x ∉ ks)
    (hp : ∀ u, p = some u → u < x ∧ ∀ b ∈ ks, u < b) :
    patchFst (succK x ks) x
      (patchSnd (predOr p x ks) x
        (setS x (predOr p x ks, succK x ks) (canonEntries p ks)))
    = canonEntries p (insertK x ks) := by
  induction ks generalizing p with
  | nil =>
    cases p with
    | none => rfl
    | some u =>
      have hux : u < x := (hp u rfl).1
      show patchFst none x
          (patchSnd (some u) x [(x, ((some u : Option ℚ), (none : Option ℚ)))])
        = [(x, ((some u : Option ℚ), (none : Option ℚ)))]
      rw [patchSnd_cons_ne u x x ((some u : Option ℚ), (none : Option ℚ)) []
        (ne_of_gt hux)]
      rfl
  | cons a l ih =>
    have hal : ∀ w ∈ l, a < w := (List.pairwise_cons.1 hs).1
    have hsl : l.Pairwise (· < ·) := (List.pairwise_cons.1 hs).2
    have hxa : x ≠ a := fun h => hx (h ▸ List.mem_cons_self a l)
    have hxl : x ∉ l := fun h => hx (List.mem_cons_of_mem a h)
    have hanl : a ∉ l := fun h => absurd (hal a h) (lt_irrefl a)
    by_cases h1 : x < a
    · rw [predOr_cons_le p x a l (le_of_lt h1), succK_cons_lt x a l h1]
      rw [show insertK x (a :: l) = x :: a :: l from by rw [insertK, if_pos h1]]
      rw [canon_cons p a l]
      rw [setS_cons_lt x ((p : Option ℚ), some a) a ((p, List.head? l) : N2)
        (canonEntries (some a) l) h1]
      have hps : patchSnd p x
          ((x, ((p : Option ℚ), some a)) :: (a, ((p : Option ℚ), List.head? l)) ::
            canonEntries (some a) l)
        = (x, ((p : Option ℚ), some a)) :: (a, ((p : Option ℚ), List.head? l)) ::
            canonEntries (some a) l := by
        cases p with
        | none => rfl
        | some u =>
          obtain ⟨hux, hub⟩ := hp u rfl
          refine patchSnd_not_mem u x _ ?_
          rw [keysOf_cons, keysOf_cons, keysOf_canon]
          intro hmem
          rcases List.mem_cons.1 hmem with hh | hmem2
          · exact absurd hh (ne_of_lt hux)
          rcases List.mem_cons.1 hmem2 with hh | hh
          · exact absurd hh (ne_of_lt (hub a (List.mem_cons_self a l)))
          · exact absurd (hub u (List.mem_cons_of_mem a hh)) (lt_irrefl u)
      rw [hps]
      rw [patchFst_cons_ne a x x ((p : Option ℚ), some a) _ hxa]
      rw [patchFst_cons_eq a x ((p : Option ℚ), List.head? l) _]
      rw [patchFst_not_mem a x _ (by rw [keysOf_canon]; exact hanl)]
      rw [canon_cons p x (a :: l), canon_cons (some x) a l]
      rfl
    · have hax : a < x := lt_of_le_of_ne (not_lt.1 h1) (fun h => hxa h.symm)
      rw [predOr_cons_gt p x a l hax, succK_cons_ge x a l h1]
      rw [show insertK x (a :: l) = a :: insertK x l from by
        rw [insertK, if_neg h1, if_neg hxa]]
      rw [canon_cons p a l]
      rw [setS_cons_gt x (predOr (some a) x l, succK x l) a
        ((p, List.head? l) : N2) (canonEntries (some a) l) hax]
      have hih := ih (some a) hsl hxl (fun u hu => by
        cases hu
        exact ⟨hax, hal⟩)
      cases hpl : predK x l with
      | none =>
        have hPR : predOr (some a) x l = some a := by rw [predOr, hpl]; rfl
        rw [hPR] at hih ⊢
        rw [patchSnd_cons_eq a x ((p : Option ℚ), List.head? l) _]
        cases hsucc : succK x l with
        | none =>
          rw [hsucc, patchFst_none] at hih
          rw [patchFst_none, hih, canon_cons p a (insertK x l),
            insertK_head_none x l hxl hpl]
        | some c =>
          rw [hsucc] at hih
          have hac : a ≠ c := ne_of_lt (hal c (succK_mem x l c hsucc).1)
          rw [patchFst_cons_ne c x a (((p : Option ℚ), List.head? l).1, some x) _ hac,
            hih, canon_cons p a (insertK x l), insertK_head_none x l hxl hpl]
      | some u =>
        have hPR : predOr (some a) x l = some u := by rw [predOr, hpl]; rfl
        rw [hPR] at hih ⊢
        have hau : a ≠ u := ne_of_lt (hal u (predK_mem x l u hpl).1)
        rw [patchSnd_cons_ne u x a ((p : Option ℚ), List.head? l) _ hau]
        cases hsucc : succK x l with
        | none =>
          rw [hsucc, patchFst_none] at hih
          rw [patchFst_none, hih, canon_cons p a (insertK x l),
            insertK_head_some x l u hxl hpl]
        | some c =>
          rw [hsucc] at hih
          have hac : a ≠ c := ne_of_lt (hal c (succK_mem x l c hsucc).1)
          rw [patchFst_cons_ne c x a ((p : Option ℚ), List.head? l) _ hac,
            hih, canon_cons p a (insertK x l), insertK_head_some x l u hxl hpl]

end Learner1D

namespace Learner1D

theorem succK_insertK_of_ne (x c : ℚ) (ks : List ℚ) (hs : ks.Pairwise (· < ·))
    (hx : x ∉ ks) (hc : c ∈ ks) (hne : predK x ks ≠ some c) :
    succK c (insertK x ks) = succK c ks := by
  induction ks with
  | nil => cases hc
  | cons a l ih =>
    have hal : ∀ w ∈ l, a < w := (List.pairwise_cons.1 hs).1
    have hsl : l.Pairwise (· < ·) := (List.pairwise_cons.1 hs).2
    have hxa : x ≠ a := fun h => hx (h ▸ List.mem_cons_self a l)
    have hxl : x ∉ l := fun h => hx (List.mem_cons_of_mem a h)
    by_cases h1 : x < a
    · rw [insertK, if_pos h1]
      have hac : a ≤ c := by
        rcases List.mem_cons.1 hc with he | hm
        · exact le_of_eq he.symm
        · exact le_of_lt (hal c hm)
      rw [succK_cons_ge c x (a :: l) (not_lt.2 (le_of_lt (lt_of_lt_of_le h1 hac)))]
    · have hax : a < x := lt_of_le_of_ne (not_lt.1 h1) (Ne.symm hxa)
      rw [insertK, if_neg h1, if_neg hxa]
      by_cases hca : c < a
      · rw [succK_cons_lt c a _ hca, succK_cons_lt c a l hca]
      · rw [succK_cons_ge c a _ hca, succK_cons_ge c a l hca]
        rcases List.mem_cons.1 hc with he | hm
        · subst he
          cases hpl : predK x l with
          | none =>
            exact absurd (by rw [predK_cons_gt x c l hax, hpl]; rfl) hne
          | some u =>
            cases l with
            | nil => rw [predK_nil] at hpl; cases hpl
            | cons b l₂ =>
              have hbx : b < x := by
                by_contra hnb
                rw [predK_cons_le x b l₂ (not_lt.1 hnb)] at hpl
                cases hpl
              have hxb : x ≠ b := fun hh => hxl (by rw [hh]; exact List.mem_cons_self b l₂)
              rw [insertK, if_neg (not_lt.2 (le_of_lt hbx)), if_neg hxb]
              have hab2 : c < b := hal b (List.mem_cons_self b l₂)
              rw [succK_cons_lt c b _ hab2, succK_cons_lt c b l₂ hab2]
        · refine ih hsl hxl hm (fun hplc => ?_)
          exact hne (by rw [predK_cons_gt x a l hax, hplc]; rfl)

theorem pred_succ_gap (x a : ℚ) (ks : List ℚ) (hs : ks.Pairwise (· < ·))
    (hx : x ∉ ks) (hpa : predK x ks = some a) :
    succK a ks = succK x ks := by
  induction ks with
  | nil => rw [predK_nil] at hpa; cases hpa
  | cons c l ih =>
    have hcl : ∀ w ∈ l, c < w := (List.pairwise_cons.1 hs).1
    have hsl : l.Pairwise (· < ·) := (List.pairwise_cons.1 hs).2
    have hxc : x ≠ c := fun h => hx (h ▸ List.mem_cons_self c l)
    have hxl : x ∉ l := fun h => hx (List.mem_cons_of_mem c h)
    have hcx : c < x := by
      by_contra hnc
      rw [predK_cons_le x c l (not_lt.1 hnc)] at hpa
      cases hpa
    rw [predK_cons_gt x c l hcx] at hpa
    rw [succK_cons_ge x c l (not_lt.2 (le_of_lt hcx))]
    cases hpl : predK x l with
    | none =>
      rw [hpl] at hpa
      have hac : a = c := by
        have hh : some c = some a := hpa
        exact (Option.some.inj hh).symm
      subst hac
      rw [succK_cons_ge a a l (lt_irrefl a)]
      cases l with
      | nil => rfl
      | cons b l₂ =>
        have hcb : a < b := hcl b (List.mem_cons_self b l₂)
        have hxb : x < b := by
          rcases lt_or_le x b with hh | hh
          · exact hh
          · exfalso
            have hbx : b < x := lt_of_le_of_ne hh
              (fun h2 => hxl (by rw [← h2]; exact List.mem_cons_self b l₂))
            rw [predK_cons_gt x b l₂ hbx] at hpl
            cases hp2 : predK x l₂ <;> rw [hp2] at hpl <;> exact Option.noConfusion hpl
        rw [succK_cons_lt a b l₂ hcb, succK_cons_lt x b l₂ hxb]
    | some u =>
      rw [hpl] at hpa
      have hua : u = a := Option.some.inj hpa
      subst hua
      have hal2 : u ∈ l := (predK_mem x l u hpl).1
      have hca : c < u := hcl u hal2
      rw [succK_cons_ge u c l (not_lt.2 (le_of_lt hca))]
      exact ih hsl hxl hpl

theorem update_neighbors_canon (x : ℚ) (ks : List ℚ) (hs : ks.Pairwise (· < ·)) :
    update_neighbors x (canonEntries none ks) = canonEntries none (insertK x ks) := by
  by_cases hx : x ∈ ks
  · rw [update_neighbors, if_pos (by rw [keysOf_canon]; exact hx),
      insertK_mem x ks hs hx]
  · rw [update_neighbors, if_neg (by rw [keysOf_canon]; exact hx)]
    rw [find_eq x _ (by rw [keysOf_canon]; exact hx), keysOf_canon]
    have hmain := comp_insert x none ks hs hx (fun u hu => by cases hu)
    rw [predOr_none] at hmain
    exact hmain

theorem NbrsGood_update (x : ℚ) (nbrs : List (ℚ × N2)) (h : NbrsGood nbrs) :
    NbrsGood (update_neighbors x nbrs) ∧
      keysOf (update_neighbors x nbrs) = insertK x (keysOf nbrs) := by
  obtain ⟨hs, hc⟩ := h
  have hu := update_neighbors_canon x (keysOf nbrs) hs
  rw [← hc] at hu
  have hs2 : (insertK x (keysOf nbrs)).Pairwise (· < ·) := by
    by_cases hx : x ∈ keysOf nbrs
    · rw [insertK_mem x _ hs hx]; exact hs
    · exact pairwise_insertK x _ hs hx
  refine ⟨⟨?_, ?_⟩, ?_⟩
  · rw [hu, keysOf_canon]; exact hs2
  · rw [hu, keysOf_canon]
  · rw [hu, keysOf_canon]

theorem update_losses_nn (x : ℚ) (dat : List (ℚ × ℝ)) (nbrs : List (ℚ × N2))
    (ls : List ((ℚ × ℚ) × ℝ)) (sx : ℚ) (sy : EReal)
    (h : lookupA x nbrs = some (none, none)) :
    update_losses x dat nbrs ls sx sy = ls := by
  rw [update_losses, h]
  rfl

theorem update_losses_sn (x : ℚ) (dat : List (ℚ × ℝ)) (nbrs : List (ℚ × N2))
    (ls : List ((ℚ × ℚ) × ℝ)) (sx : ℚ) (sy : EReal) (a : ℚ)
    (h : lookupA x nbrs = some (some a, none)) :
    update_losses x dat nbrs ls sx sy
      = setA (a, x) (interval_loss a x dat sx sy) ls := by
  rw [update_losses, h]
  rfl

theorem update_losses_ns (x : ℚ) (dat : List (ℚ × ℝ)) (nbrs : List (ℚ × N2))
    (ls : List ((ℚ × ℚ) × ℝ)) (sx : ℚ) (sy : EReal) (b : ℚ)
    (h : lookupA x nbrs = some (none, some b)) :
    update_losses x dat nbrs ls sx sy
      = setA (x, b) (interval_loss x b dat sx sy) ls := by
  rw [update_losses, h]
  rfl

theorem update_losses_ss (x : ℚ) (dat : List (ℚ × ℝ)) (nbrs : List (ℚ × N2))
    (ls : List ((ℚ × ℚ) × ℝ)) (sx : ℚ) (sy : EReal) (a b : ℚ)
    (h : lookupA x nbrs = some (some a, some b)) :
    update_losses x dat nbrs ls sx sy
      = eraseA (a, b) (setA (x, b) (interval_loss x b dat sx sy)
          (setA (a, x) (interval_loss a x dat sx sy) ls)) := by
  rw [update_losses, h]
  rfl

theorem keysOf_map_snd {α β γ : Type} (f : α × β → γ) (l : List (α × β)) :
    keysOf (l.map (fun p => (p.1, f p))) = keysOf l := by
  rw [keysOf, keysOf, List.map_map]
  rfl

theorem LossKeysOk_keys_congr (n : List (ℚ × N2)) (ls ls2 : List ((ℚ × ℚ) × ℝ))
    (hk : keysOf ls2 = keysOf ls) (h : LossKeysOk n ls) : LossKeysOk n ls2 := by
  refine ⟨?_, ?_⟩
  · rw [hk]; exact h.1
  · intro a b; rw [hk]; exact h.2 a b

end Learner1D

namespace Learner1D

theorem LossKeysOk_update (x : ℚ) (dat : List (ℚ × ℝ)) (sx : ℚ) (sy : EReal)
    (nbrs : List (ℚ × N2)) (ls : List ((ℚ × ℚ) × ℝ))
    (hn : NbrsGood nbrs) (hl : LossKeysOk nbrs ls) :
    LossKeysOk (update_neighbors x nbrs)
      (update_losses x dat (update_neighbors x nbrs) ls sx sy) := by
  obtain ⟨hs, hc⟩ := hn
  obtain ⟨hnd, hiff⟩ := hl
  have hu := update_neighbors_canon x (keysOf nbrs) hs
  rw [← hc] at hu
  have hs2 : (insertK x (keysOf nbrs)).Pairwise (· < ·) := by
    by_cases hx : x ∈ keysOf nbrs
    · rw [insertK_mem x _ hs hx]; exact hs
    · exact pairwise_insertK x _ hs hx
  have hxk : x ∈ insertK x (keysOf nbrs) := (mem_insertK x x _).2 (Or.inl rfl)
  have hpred : predK x (insertK x (keysOf nbrs)) = predK x (keysOf nbrs) := by
    by_cases hx : x ∈ keysOf nbrs
    · rw [insertK_mem x _ hs hx]
    · exact predK_insertK x _ hx
  have hsucc2 : succK x (insertK x (keysOf nbrs)) = succK x (keysOf nbrs) := by
    by_cases hx : x ∈ keysOf nbrs
    · rw [insertK_mem x _ hs hx]
    · exact succK_insertK x _ hx
  have hlook : lookupA x (update_neighbors x nbrs)
      = some (predK x (keysOf nbrs), succK x (keysOf nbrs)) := by
    rw [hu, lookup_canon _ hs2 x hxk, hpred, hsucc2]
  have hK : ∀ c d : ℚ, (c, d) ∈ keysOf ls ↔
      c ∈ keysOf nbrs ∧ succK c (keysOf nbrs) = some d := by
    intro c d
    rw [hiff c d]
    constructor
    · intro ha; rw [hc] at ha; exact (adj_canon _ hs c d).1 ha
    · intro ha; rw [hc]; exact (adj_canon _ hs c d).2 ha
  have hAdj : ∀ c d : ℚ, Adj (update_neighbors x nbrs) c d ↔
      c ∈ insertK x (keysOf nbrs) ∧ succK c (insertK x (keysOf nbrs)) = some d := by
    intro c d
    rw [hu]
    exact adj_canon _ hs2 c d
  rcases hpa : predK x (keysOf nbrs) with _ | a
  · rcases hsb : succK x (keysOf nbrs) with _ | b
    · rw [hpa, hsb] at hlook
      rw [update_losses_nn x dat _ ls sx sy hlook]
      refine ⟨hnd, fun c d => ?_⟩
      rw [hK c d, hAdj c d]
      by_cases hx : x ∈ keysOf nbrs
      · rw [insertK_mem x _ hs hx]
      · have hknil : keysOf nbrs = [] := by
          cases hksc : keysOf nbrs with
          | nil => rfl
          | cons w t =>
            exfalso
            rcases lt_or_le x w with hlt | hle
            · rw [hksc, succK_cons_lt x w t hlt] at hsb
              cases hsb
            · have hwx : w < x := lt_of_le_of_ne hle
                (fun hh => hx (by rw [hksc, ← hh]; exact List.mem_cons_self w t))
              rw [hksc, predK_cons_gt x w t hwx] at hpa
              cases hp2 : predK x t <;> rw [hp2] at hpa <;> exact Option.noConfusion hpa
        rw [hknil]
        constructor
        · rintro ⟨h0, _⟩
          cases h0
        · rintro ⟨h1, h2⟩
          have hcx : c = x := by
            rcases List.mem_cons.1 h1 with hh | hh
            · exact hh
            · cases hh
          subst hcx
          rw [show insertK c ([] : List ℚ) = [c] from rfl,
            succK_cons_ge c c [] (lt_irrefl c), succK_nil] at h2
          cases h2
    · rw [hpa, hsb] at hlook
      rw [update_losses_ns x dat _ ls sx sy b hlook]
      refine ⟨nodup_setA _ _ _ hnd, fun c d => ?_⟩
      rw [keysOf_mem_setA, hK c d, hAdj c d]
      obtain ⟨hbk, hxb⟩ := succK_mem x _ b hsb
      by_cases hx : x ∈ keysOf nbrs
      · rw [insertK_mem x _ hs hx]
        constructor
        · rintro (he | hm)
          · rw [Prod.mk.injEq] at he
            obtain ⟨hc1, hd1⟩ := he
            subst hc1; subst hd1
            exact ⟨hx, hsb⟩
          · exact hm
        · exact fun hm => Or.inr hm
      · constructor
        · rintro (he | ⟨hck, hsd⟩)
          · rw [Prod.mk.injEq] at he
            obtain ⟨hc1, hd1⟩ := he
            subst hc1; subst hd1
            refine ⟨hxk, ?_⟩
            rw [hsucc2, hsb]
          · refine ⟨(mem_insertK x c _).2 (Or.inr hck), ?_⟩
            rw [succK_insertK_of_ne x c _ hs hx hck
              (by rw [hpa]; exact fun hh => Option.noConfusion hh)]
            exact hsd
        · rintro ⟨hck2, hsd2⟩
          rcases (mem_insertK x c _).1 hck2 with hcx | hck
          · subst hcx
            rw [hsucc2, hsb] at hsd2
            cases hsd2
            exact Or.inl rfl
          · rw [succK_insertK_of_ne x c _ hs hx hck
              (by rw [hpa]; exact fun hh => Option.noConfusion hh)] at hsd2
            exact Or.inr ⟨hck, hsd2⟩
  · rcases hsb : succK x (keysOf nbrs) with _ | b
    · rw [hpa, hsb] at hlook
      rw [update_losses_sn x dat _ ls sx sy a hlook]
      refine ⟨nodup_setA _ _ _ hnd, fun c d => ?_⟩
      rw [keysOf_mem_setA, hK c d, hAdj c d]
      obtain ⟨hak, hax⟩ := predK_mem x _ a hpa
      by_cases hx : x ∈ keysOf nbrs
      · rw [insertK_mem x _ hs hx]
        have hsx : succK a (keysOf nbrs) = some x := pred_succ x a _ hs hx hpa
        constructor
        · rintro (he | hm)
          · rw [Prod.mk.injEq] at he
            obtain ⟨hc1, hd1⟩ := he
            subst hc1; subst hd1
            exact ⟨hak, hsx⟩
          · exact hm
        · exact fun hm => Or.inr hm
      · have hgap : succK a (keysOf nbrs) = succK x (keysOf nbrs) :=
          pred_succ_gap x a _ hs hx hpa
        have hax2 : succK a (insertK x (keysOf nbrs)) = some x :=
          pred_succ x a _ hs2 hxk (by rw [hpred, hpa])
        constructor
        · rintro (he | ⟨hck, hsd⟩)
          · rw [Prod.mk.injEq] at he
            obtain ⟨hc1, hd1⟩ := he
            rw [hc1, hd1]
            exact ⟨(mem_insertK x a _).2 (Or.inr hak), hax2⟩
          · have hca : c ≠ a := by
              intro hh
              subst hh
              rw [hgap, hsb] at hsd
              cases hsd
            refine ⟨(mem_insertK x c _).2 (Or.inr hck), ?_⟩
            rw [succK_insertK_of_ne x c _ hs hx hck
              (by rw [hpa]; exact fun hh => hca (Option.some.inj hh).symm)]
            exact hsd
        · rintro ⟨hck2, hsd2⟩
          rcases (mem_insertK x c _).1 hck2 with hcx | hck
          · subst hcx
            rw [hsucc2, hsb] at hsd2
            cases hsd2
          · by_cases hca : c = a
            · subst hca
              rw [hax2] at hsd2
              cases hsd2
              exact Or.inl rfl
            · rw [succK_insertK_of_ne x c _ hs hx hck
                (by rw [hpa]; exact fun hh => hca (Option.some.inj hh).symm)] at hsd2
              exact Or.inr ⟨hck, hsd2⟩
    · rw [hpa, hsb] at hlook
      rw [update_losses_ss x dat _ ls sx sy a b hlook]
      have hnd2 : (keysOf (setA (x, b) (interval_loss x b dat sx sy)
          (setA (a, x) (interval_loss a x dat sx sy) ls))).Nodup :=
        nodup_setA _ _ _ (nodup_setA _ _ _ hnd)
      refine ⟨nodup_eraseA _ _ hnd2, fun c d => ?_⟩
      rw [keysOf_mem_eraseA _ _ _ hnd2, keysOf_mem_setA, keysOf_mem_setA,
        hK c d, hAdj c d]
      obtain ⟨hak, hax⟩ := predK_mem x _ a hpa
      obtain ⟨hbk, hxb⟩ := succK_mem x _ b hsb
      by_cases hx : x ∈ keysOf nbrs
      · rw [insertK_mem x _ hs hx]
        have hsx : succK a (keysOf nbrs) = some x := pred_succ x a _ hs hx hpa
        constructor
        · rintro ⟨(he | he | hm), hne⟩
          · rw [Prod.mk.injEq] at he
            obtain ⟨hc1, hd1⟩ := he
            subst hc1; subst hd1
            exact ⟨hx, hsb⟩
          · rw [Prod.mk.injEq] at he
            obtain ⟨hc1, hd1⟩ := he
            subst hc1; subst hd1
            exact ⟨hak, hsx⟩
          · exact hm
        · intro hm
          refine ⟨Or.inr (Or.inr hm), fun he => ?_⟩
          rw [Prod.mk.injEq] at he
          obtain ⟨hc1, hd1⟩ := he
          subst hc1; subst hd1
          rw [hsx] at hm
          exact absurd (Option.some.inj hm.2) (ne_of_lt hxb)
      · have hgap : succK a (keysOf nbrs) = succK x (keysOf nbrs) :=
          pred_succ_gap x a _ hs hx hpa
        have hax2 : succK a (insertK x (keysOf nbrs)) = some x :=
          pred_succ x a _ hs2 hxk (by rw [hpred, hpa])
        constructor
        · rintro ⟨(he | he | ⟨hck, hsd⟩), hne⟩
          · rw [Prod.mk.injEq] at he
            obtain ⟨hc1, hd1⟩ := he
            subst hc1; subst hd1
            refine ⟨hxk, ?_⟩
            rw [hsucc2, hsb]
          · rw [Prod.mk.injEq] at he
            obtain ⟨hc1, hd1⟩ := he
            rw [hc1, hd1]
            exact ⟨(mem_insertK x a _).2 (Or.inr hak), hax2⟩
          · have hca : c ≠ a := by
              intro hh
              apply hne
              subst hh
              rw [hgap, hsb] at hsd
              cases hsd
              rfl
            refine ⟨(mem_insertK x c _).2 (Or.inr hck), ?_⟩
            rw [succK_insertK_of_ne x c _ hs hx hck
              (by rw [hpa]; exact fun hh => hca (Option.some.inj hh).symm)]
            exact hsd
        · rintro ⟨hck2, hsd2⟩
          rcases (mem_insertK x c _).1 hck2 with hcx | hck
          · subst hcx
            rw [hsucc2, hsb] at hsd2
            cases hsd2
            refine ⟨Or.inl rfl, fun he => ?_⟩
            rw [Prod.mk.injEq] at he
            exact absurd he.1 (ne_of_gt hax)
          · by_cases hca : c = a
            · subst hca
              rw [hax2] at hsd2
              cases hsd2
              refine ⟨Or.inr (Or.inl rfl), fun he => ?_⟩
              rw [Prod.mk.injEq] at he
              exact absurd he.2 (ne_of_lt hxb)
            · rw [succK_insertK_of_ne x c _ hs hx hck
                (by rw [hpa]; exact fun hh => hca (Option.some.inj hh).symm)] at hsd2
              refine ⟨Or.inr (Or.inr ⟨hck, hsd2⟩), fun he => ?_⟩
              rw [Prod.mk.injEq] at he
              exact hca he.1

end Learner1D

namespace Learner1D

theorem Inv_init (bounds : ℚ × ℚ) : Inv (init bounds) := by
  refine ⟨⟨List.Pairwise.nil, rfl⟩, ⟨List.Pairwise.nil, rfl⟩,
    ⟨List.nodup_nil, ?_⟩, ⟨List.nodup_nil, ?_⟩⟩ <;>
    (intro a b; simp [Adj, keysOf, init])

theorem add_point_Inv (s : L1State) (x : ℚ) (y : Option ℝ) (h : Inv s) :
    Inv (add_point s x y) := by
  obtain ⟨h1, h2, h3, h4⟩ := h
  cases y with
  | none =>
    simp only [add_point, Option.isSome_none, Bool.false_eq_true, false_and,
      if_false]
    exact ⟨h1, (NbrsGood_update x _ h2).1, h3,
      LossKeysOk_update x _ _ _ _ _ h2 h4⟩
  | some v =>
    simp only [add_point, Option.isSome_some, eq_self_iff_true, true_and, if_true]
    split_ifs with hcond
    · exact ⟨(NbrsGood_update x _ h1).1, (NbrsGood_update x _ h2).1,
        LossKeysOk_keys_congr _ _ _ (keysOf_map_snd _ _)
          (LossKeysOk_update x _ _ _ _ _ h1 h3),
        LossKeysOk_keys_congr _ _ _ (keysOf_map_snd _ _)
          (LossKeysOk_update x _ _ _ _ _ h2 h4)⟩
    · exact ⟨(NbrsGood_update x _ h1).1, (NbrsGood_update x _ h2).1,
        LossKeysOk_update x _ _ _ _ _ h1 h3,
        LossKeysOk_update x _ _ _ _ _ h2 h4⟩

theorem addAll_Inv (ops : List (ℚ × Option ℝ)) (s : L1State) (h : Inv s) :
    Inv (addAll s ops) := by
  induction ops generalizing s with
  | nil => exact h
  | cons q t ih => exact ih _ (add_point_Inv s q.1 q.2 h)

theorem Inv_sideOk (nbrs : List (ℚ × N2)) (ls : List ((ℚ × ℚ) × ℝ))
    (hn : NbrsGood nbrs) (hl : LossKeysOk nbrs ls) : sideOk nbrs ls := by
  obtain ⟨hs, hc⟩ := hn
  obtain ⟨hnd, hiff⟩ := hl
  intro x e hxe
  have hmem : x ∈ keysOf nbrs ∧
      e = (predK x (keysOf nbrs), succK x (keysOf nbrs)) := by
    have hxe2 := hxe
    rw [hc] at hxe2
    have hm2 := (mem_canon _ none hs x e).1 hxe2
    rw [predOr_none] at hm2
    exact hm2
  obtain ⟨hxk, he⟩ := hmem
  subst he
  refine ⟨?_, ?_, ?_, ?_⟩
  · intro a ha
    replace ha : predK x (keysOf nbrs) = some a := ha
    rw [hiff a x, hc]
    exact (adj_canon _ hs a x).2 ⟨(predK_mem x _ a ha).1, pred_succ x a _ hs hxk ha⟩
  · intro b hb
    replace hb : succK x (keysOf nbrs) = some b := hb
    rw [hiff x b, hc]
    exact (adj_canon _ hs x b).2 ⟨hxk, hb⟩
  · intro hnone a ha
    replace hnone : predK x (keysOf nbrs) = none := hnone
    rw [hiff a x, hc] at ha
    obtain ⟨hak, hsx⟩ := (adj_canon _ hs a x).1 ha
    have hpx := succ_pred x a _ hs hak hsx
    rw [hnone] at hpx
    exact Option.noConfusion hpx
  · intro hnone b hb
    replace hnone : succK x (keysOf nbrs) = none := hnone
    rw [hiff x b, hc] at hb
    obtain ⟨_, hsb⟩ := (adj_canon _ hs x b).1 hb
    rw [hnone] at hsb
    exact Option.noConfusion hsb

end Learner1D

open Learner1D in
/-- C10: for the 1-D engine, after any sequence of add_point calls from the
initial state, the real-only loss map is keyed exactly by the adjacent pairs
of the real neighbor map and the combined loss map by those of the combined
neighbor map: every neighbor-map key with a left (right) neighbor has a loss
entry for that adjacent pair, and a key with no left (right) neighbor has no
loss entry on that side. -/
theorem C10_theorem (bounds : ℚ × ℚ) (ops : List (ℚ × Option ℝ)) :
    sideOk (addAll (init bounds) ops).neighbors
      (addAll (init bounds) ops).losses ∧
    sideOk (addAll (init bounds) ops).neighbors_combined
      (addAll (init bounds) ops).losses_combined := by
  have h := addAll_Inv ops (init bounds) (Inv_init bounds)
  exact ⟨Inv_sideOk _ _ h.1 h.2.2.1, Inv_sideOk _ _ h.2.1 h.2.2.2⟩
